import Mathlib

/-!
Verification development for the cybozulib streaming zlib codec
(`ZlibCompressorT` / `ZlibDecompressorT`) and the `XorShift` generator.

The session logic (buffer management, drive loops, gzip framing, error
paths) is embedded directly from the C++ source.  The DEFLATE engine
itself (zlib's `deflate` / `inflate`) is an external collaborator of the
repository; following the specification it is modelled as an abstract
block engine consumed only through step functions.  Streams are byte
lists; machine integers are `Nat` with explicit `% 2 ^ 32` where the
source relies on 32-bit wraparound.
-/

set_option maxRecDepth 8000

namespace Cybozu

/-- Status codes of the block-compression engine, mirroring the zlib
return codes the source inspects (`Z_OK`, `Z_STREAM_END`,
`Z_STREAM_ERROR`, `Z_DATA_ERROR`). -/
inductive ZStatus where
  | ok
  | streamEnd
  | streamErr
  | dataErr
  deriving DecidableEq

/-- Failure outcomes of the embedded operations.  The C++ code throws
`cybozu::ZlibException` with distinct messages; the constructors keep the
distinct failure classes apart (`engine` for unexpected engine codes,
`sinkWrite` for a short sink write, `badHeader` for a rejected gzip
header, `truncated` for a short source read inside `readAll`).
`outOfFuel` signals exhaustion of the fuel used to bound the loops of the
embedding. -/
inductive ZErr where
  | engine
  | sinkWrite
  | badHeader
  | truncated
  | outOfFuel
  deriving DecidableEq

/-- Little-endian 4-byte encoding, modelling `cybozu::Put32bitAsLE`
(the helper is declared in `endian.hpp`; the spec fixes the trailer
layout as little-endian). -/
def le32 (n : Nat) : List Nat :=
  [n % 256, n / 2 ^ 8 % 256, n / 2 ^ 16 % 256, n / 2 ^ 24 % 256]

/-- Modelled from the spec: one bit-step of the reflected CRC-32 used by
the gzip trailer (polynomial `0xEDB88320`); zlib's `crc32` is not part of
the repository sources. -/
def crcBit (c : Nat) : Nat :=
  if c % 2 = 1 then Nat.xor (c / 2) 0xEDB88320 else c / 2

/-- Modelled from the spec: CRC-32 update by one input byte. -/
def crcByte (c b : Nat) : Nat :=
  crcBit^[8] (Nat.xor c (b % 256))

/-- Modelled from the spec: zlib-style `crc32(c, data)`, with the usual
pre/post complement; `crc32 0 [] = 0` matches `crc32(0, Z_NULL, 0)`. -/
def crc32 (c : Nat) (data : List Nat) : Nat :=
  Nat.xor (data.foldl crcByte (Nat.xor c 0xFFFFFFFF)) 0xFFFFFFFF

/-- Modelled from the spec: the wire encoding produced by the modelled
block engine for one stream: the input length in unary (a run of `1`
bytes closed by a `0` byte) followed by the raw input bytes.  This is a
self-delimiting stand-in for the DEFLATE bit format, which is outside
the repository. -/
def encodeStream (data : List Nat) : List Nat :=
  List.replicate data.length 1 ++ 0 :: data

/-- Modelled from the spec: state of the compression engine handle.
`acc` is the input accepted so far; `pending` is `some p` once a
finalize directive has started, `p` being the not-yet-emitted part of
the encoded stream. -/
structure DefSt where
  acc : List Nat
  pending : Option (List Nat)
  deriving DecidableEq

/-- Result of one engine compression step: new engine state, unconsumed
input (`avail_in` after the call), bytes produced into the output
buffer, and the status code. -/
structure DefRes where
  dz : DefSt
  leftoverIn : List Nat
  out : List Nat
  st : ZStatus
  deriving DecidableEq

/-- Modelled from the spec: one `deflate` call.  With `Z_NO_FLUSH` the
engine absorbs all offered input and produces nothing; with `Z_FINISH`
it emits up to `cap` bytes of the pending encoded stream and reports
`Z_STREAM_END` once everything fits.  A `Z_NO_FLUSH` call on a finalized
stream fails with `Z_STREAM_ERROR`, as zlib does after stream end. -/
def deflateStep (dz : DefSt) (input : List Nat) (cap : Nat) (finishDir : Bool) : DefRes :=
  if finishDir then
    let p := dz.pending.getD (encodeStream dz.acc)
    ⟨⟨[], some (p.drop cap)⟩, input, p.take cap,
      if p.length ≤ cap then .streamEnd else .ok⟩
  else
    match dz.pending with
    | some _ => ⟨dz, input, [], .streamErr⟩
    | none => ⟨⟨dz.acc ++ input, none⟩, [], [], .ok⟩

/-- State of `ZlibCompressorT<OutputStream>`: the borrowed output stream,
the CRC-32 and total-size accumulators (`crc_`, `totalSize_`, the latter
kept mod `2^32` as `unsigned int`), the engine handle `z_`, the
`isFlushCalled_` flag and the `useGzip_` mode flag.  `ω` is the
`OutputStream` template parameter. -/
structure CompSt (ω : Type) where
  os : ω
  crc : Nat
  totalSize : Nat
  dz : DefSt
  isFlushCalled : Bool
  useGzip : Bool
  deriving DecidableEq

/-- The fixed gzip header written by the constructor:
`"\x1f\x8b\x08\x00\x00\x00\x00\x00\x00\x03"`. -/
def gzipHeaderBytes : List Nat := [0x1f, 0x8b, 0x08, 0, 0, 0, 0, 0, 0, 3]

/-- `ZlibCompressorT::write`: calls `os_.write(buf, size)` and throws if
the reported count differs from the requested size.  The output stream
is an abstract pair of a state `ω` and a pure step `w` returning the new
stream state and the reported count. -/
def compWrite {ω : Type} (w : ω → List Nat → ω × Nat) (os : ω) (buf : List Nat) :
    Except ZErr ω :=
  let r := w os buf
  if r.2 ≠ buf.length then .error .sinkWrite else .ok r.1

/-- The `ZlibCompressorT` constructor: initializes the engine and, in
gzip mode, writes the fixed 10-byte header through `write` before
returning. -/
def mkComp {ω : Type} (w : ω → List Nat → ω × Nat) (os : ω) (useGzip : Bool) :
    Except ZErr (CompSt ω) :=
  if useGzip then
    match compWrite w os gzipHeaderBytes with
    | .error e => .error e
    | .ok os2 => .ok ⟨os2, 0, 0, ⟨[], none⟩, false, true⟩
  else .ok ⟨os, 0, 0, ⟨[], none⟩, false, false⟩

/-- The `while (z_.avail_in > 0)` loop of `ZlibCompressorT::exec`:
drive the engine with `Z_NO_FLUSH`, reject unexpected statuses, write
the produced bytes, stop on `Z_STREAM_END`.  `fuel` bounds the loop. -/
def execLoop {ω : Type} (w : ω → List Nat → ω × Nat) (bufSz : Nat) :
    Nat → CompSt ω → List Nat → Except ZErr (CompSt ω)
  | 0, _, _ => .error .outOfFuel
  | fuel + 1, st, availIn =>
    if 0 < availIn.length then
      let r := deflateStep st.dz availIn bufSz false
      if r.st ≠ .streamEnd ∧ r.st ≠ .ok then .error .engine
      else
        match compWrite w st.os r.out with
        | .error e => .error e
        | .ok os2 =>
          let st2 : CompSt ω := { st with dz := r.dz, os := os2 }
          if r.st = .streamEnd then .ok st2
          else execLoop w bufSz fuel st2 r.leftoverIn
    else .ok st

/-- `ZlibCompressorT::exec`: in gzip mode first update the CRC-32 and
total-size accumulators over the input, then run the drive loop. -/
def compExec {ω : Type} (w : ω → List Nat → ω × Nat) (bufSz fuel : Nat)
    (st : CompSt ω) (buf : List Nat) : Except ZErr (CompSt ω) :=
  let st1 : CompSt ω :=
    if st.useGzip then
      { st with crc := crc32 st.crc buf,
                totalSize := (st.totalSize + buf.length) % 2 ^ 32 }
    else st
  execLoop w bufSz fuel st1 buf

/-- The `for (;;)` loop of `ZlibCompressorT::flush`: drive the engine
with `Z_FINISH`, write each produced block, stop after the block on
which the engine reports `Z_STREAM_END`. -/
def flushLoop {ω : Type} (w : ω → List Nat → ω × Nat) (bufSz : Nat) :
    Nat → CompSt ω → Except ZErr (CompSt ω)
  | 0, _ => .error .outOfFuel
  | fuel + 1, st =>
    let r := deflateStep st.dz [] bufSz true
    if r.st ≠ .streamEnd ∧ r.st ≠ .ok then .error .engine
    else
      match compWrite w st.os r.out with
      | .error e => .error e
      | .ok os2 =>
        let st2 : CompSt ω := { st with dz := r.dz, os := os2 }
        if r.st = .streamEnd then .ok st2
        else flushLoop w bufSz fuel st2

/-- `ZlibCompressorT::flush`: set `isFlushCalled_`, drain the engine,
and in gzip mode append the 8-byte trailer (CRC-32 then total size,
both little-endian). -/
def compFlush {ω : Type} (w : ω → List Nat → ω × Nat) (bufSz fuel : Nat)
    (st : CompSt ω) : Except ZErr (CompSt ω) :=
  match flushLoop w bufSz fuel { st with isFlushCalled := true } with
  | .error e => .error e
  | .ok st2 =>
    if st2.useGzip then
      match compWrite w st2.os (le32 st2.crc ++ le32 st2.totalSize) with
      | .error e => .error e
      | .ok os2 => .ok { st2 with os := os2 }
    else .ok st2

/-- A compressor session: feed each chunk with `exec`, then `flush`. -/
def compressFeeds {ω : Type} (w : ω → List Nat → ω × Nat) (bufSz fuel : Nat) :
    CompSt ω → List (List Nat) → Except ZErr (CompSt ω)
  | st, [] => compFlush w bufSz fuel st
  | st, c :: cs =>
    match compExec w bufSz fuel st c with
    | .error e => .error e
    | .ok st2 => compressFeeds w bufSz fuel st2 cs

/-- A full compressor session from construction to `flush`. -/
def compressChunks {ω : Type} (w : ω → List Nat → ω × Nat) (os : ω)
    (useGzip : Bool) (chunks : List (List Nat)) (bufSz fuel : Nat) :
    Except ZErr (CompSt ω) :=
  match mkComp w os useGzip with
  | .error e => .error e
  | .ok st => compressFeeds w bufSz fuel st chunks

/-- The list-accumulator output stream: `write` appends the buffer and
reports the full count, satisfying the sink contract. -/
def lsWrite (os : List Nat) (buf : List Nat) : List Nat × Nat :=
  (os ++ buf, buf.length)

/-- Modelled from the spec: state of the decompression engine handle for
the modelled wire format.  `lenP a` is parsing the unary length prefix
having counted `a` ones; `bodyP r` is copying out the remaining `r` data
bytes; `done` is the logical stream end. -/
inductive IPhase where
  | lenP (acc : Nat)
  | bodyP (rem : Nat)
  | done
  deriving DecidableEq

/-- Result of one engine decompression step: new engine phase,
unconsumed input, produced output, status. -/
structure InfRes where
  ph : IPhase
  leftover : List Nat
  out : List Nat
  st : ZStatus
  deriving DecidableEq

/-- Modelled from the spec: one `inflate` call with output capacity
`cap`.  It makes as much progress as the input, the capacity and the
stream allow, reports `Z_STREAM_END` exactly when the logical end is
reached (leaving any further input, e.g. the gzip trailer, unconsumed),
and keeps reporting `Z_STREAM_END` without progress once done. -/
def inflateStep : IPhase → List Nat → Nat → InfRes
  | .done, input, _ => ⟨.done, input, [], .streamEnd⟩
  | .lenP a, [], _ => ⟨.lenP a, [], [], .ok⟩
  | .lenP a, b :: rest, cap =>
    if b = 1 then inflateStep (.lenP (a + 1)) rest cap
    else if b = 0 then inflateStep (.bodyP a) rest cap
    else ⟨.lenP a, b :: rest, [], .dataErr⟩
  | .bodyP 0, input, _ => ⟨.done, input, [], .streamEnd⟩
  | .bodyP (r + 1), [], _ => ⟨.bodyP (r + 1), [], [], .ok⟩
  | .bodyP (r + 1), b :: rest, 0 => ⟨.bodyP (r + 1), b :: rest, [], .ok⟩
  | .bodyP (r + 1), b :: rest, cap + 1 =>
    let q := inflateStep (.bodyP r) rest cap
    ⟨q.ph, q.leftover, b :: q.out, q.st⟩

/-- State of `ZlibDecompressorT<InputStream>`: the borrowed input stream,
the engine phase for `z_`, the unconsumed scratch-buffer bytes
(`next_in` / `avail_in`), the persistent last status `ret_`, and the
`useGzip_` / `readGzipHeader_` flags.  `ι` is the `InputStream` template
parameter. -/
structure DecSt (ι : Type) where
  src : ι
  phase : IPhase
  availIn : List Nat
  ret : ZStatus
  useGzip : Bool
  gzHeaderDone : Bool
  deriving DecidableEq

/-- The `ZlibDecompressorT` constructor: fresh engine, empty input
buffer, `ret_ = Z_OK`, header not yet read. -/
def mkDec {ι : Type} (src : ι) (useGzip : Bool) : DecSt ι :=
  ⟨src, .lenP 0, [], .ok, useGzip, false⟩

/-- `ZlibDecompressorT::readAll`: read exactly `n` bytes from the source
or throw.  The source is an abstract pair of a state `ι` and a pure step
`rd` returning the new source state and the bytes delivered. -/
def readAllF {ι : Type} (rd : ι → Nat → ι × List Nat) (src : ι) (n : Nat) :
    Except ZErr (ι × List Nat) :=
  let r := rd src n
  if r.2.length ≠ n then .error .truncated else .ok r

/-- `ZlibDecompressorT::skip`: `n` single-byte `readAll` calls. -/
def skipF {ι : Type} (rd : ι → Nat → ι × List Nat) : ι → Nat → Except ZErr ι
  | src, 0 => .ok src
  | src, n + 1 =>
    match readAllF rd src 1 with
    | .error e => .error e
    | .ok r => skipF rd r.1 n

/-- `ZlibDecompressorT::skipToZero`: single-byte `readAll` calls until a
zero byte arrives; `fuel` bounds the unbounded C++ loop. -/
def skipToZeroF {ι : Type} (rd : ι → Nat → ι × List Nat) :
    Nat → ι → Except ZErr ι
  | 0, _ => .error .outOfFuel
  | fuel + 1, src =>
    match readAllF rd src 1 with
    | .error e => .error e
    | .ok r => if r.2.headD 1 = 0 then .ok r.1 else skipToZeroF rd fuel r.1

/-- The four sequential optional-field blocks of
`ZlibDecompressorT::readGzipHeader`, run once the fixed fields have been
accepted: skip the extra field (`FEXTRA`, 2-byte little-endian length),
the zero-terminated name (`FNAME`) and comment (`FCOMMENT`), and the
2-byte header CRC (`FHCRC`), as indicated by the flags byte. -/
def skipOptionalFields {ι : Type} (rd : ι → Nat → ι × List Nat) (ztFuel : Nat)
    (flg : Nat) (s1 : ι) : Except ZErr ι :=
  let ex1 : Except ZErr ι :=
    if Nat.land flg 4 ≠ 0 then
      match readAllF rd s1 2 with
      | .error e => .error e
      | .ok (s2, xl) => skipF rd s2 (xl.getD 0 0 + 256 * xl.getD 1 0)
    else .ok s1
  match ex1 with
  | .error e => .error e
  | .ok s2 =>
    match (if Nat.land flg 8 ≠ 0 then skipToZeroF rd ztFuel s2 else .ok s2) with
    | .error e => .error e
    | .ok s3 =>
      match (if Nat.land flg 16 ≠ 0 then skipToZeroF rd ztFuel s3 else .ok s3) with
      | .error e => .error e
      | .ok s4 => if Nat.land flg 2 ≠ 0 then skipF rd s4 2 else .ok s4

/-- `ZlibDecompressorT::readGzipHeader`: read exactly 10 bytes, verify
magic `1F 8B`, method `8` and clear reserved flag bits, then skip the
optional fields indicated by the flags byte; otherwise throw the
bad-gzip-header error. -/
def readGzipHeaderF {ι : Type} (rd : ι → Nat → ι × List Nat) (ztFuel : Nat)
    (src : ι) : Except ZErr ι :=
  match readAllF rd src 10 with
  | .error e => .error e
  | .ok (s1, h) =>
    if h.getD 0 0 = 0x1f ∧ h.getD 1 0 = 0x8b ∧ h.getD 2 0 = 8 ∧
        Nat.land (h.getD 3 0) 0xE0 = 0 then
      skipOptionalFields rd ztFuel (h.getD 3 0) s1
    else .error .badHeader

/-- The `do { ... } while (size == z_.avail_out)` loop of
`ZlibDecompressorT::read`: when `avail_in` is empty refill it from the
source (returning zero bytes when `ret_` is already `Z_STREAM_END` and
the refill came back empty), run one `inflate` step with the remaining
output capacity, stop on `Z_STREAM_END` (returning what was produced),
throw on any other non-`Z_OK` status, and loop exactly while the total
produced output is still zero (`size == z_.avail_out`). -/
def readLoop {ι : Type} (rd : ι → Nat → ι × List Nat) (bufSz : Nat) :
    Nat → DecSt ι → Nat → List Nat → Except ZErr (DecSt ι × List Nat)
  | 0, _, _, _ => .error .outOfFuel
  | fuel + 1, st, m, produced =>
    let pre : DecSt ι ⊕ DecSt ι :=
      if st.availIn.length = 0 then
        let r := rd st.src bufSz
        let st1 : DecSt ι := { st with src := r.1, availIn := r.2 }
        if st.ret = .streamEnd ∧ r.2.length = 0 then .inl st1 else .inr st1
      else .inr st
    match pre with
    | .inl st1 => .ok (st1, [])
    | .inr st1 =>
      let q := inflateStep st1.phase st1.availIn (m - produced.length)
      let st2 : DecSt ι := { st1 with phase := q.ph, availIn := q.leftover, ret := q.st }
      if q.st = .streamEnd then .ok (st2, produced ++ q.out)
      else if q.st ≠ .ok then .error .engine
      else
        let produced2 := produced ++ q.out
        if m - produced2.length = m then readLoop rd bufSz fuel st2 m produced2
        else .ok (st2, produced2)

/-- `ZlibDecompressorT::read`: return zero bytes immediately when
`max_len = 0`; on the first call in gzip mode parse the header; then run
the drive loop. -/
def zread {ι : Type} (rd : ι → Nat → ι × List Nat) (bufSz ztFuel loopFuel : Nat)
    (st : DecSt ι) (m : Nat) : Except ZErr (DecSt ι × List Nat) :=
  if m = 0 then .ok (st, [])
  else if st.useGzip ∧ ¬st.gzHeaderDone then
    match readGzipHeaderF rd ztFuel st.src with
    | .error e => .error e
    | .ok s2 => readLoop rd bufSz loopFuel { st with src := s2, gzHeaderDone := true } m []
  else readLoop rd bufSz loopFuel st m []

/-- A decompressor session: pull with a fixed `max_len = m` until a pull
returns zero bytes, concatenating the results. -/
def pullAll {ι : Type} (rd : ι → Nat → ι × List Nat) (bufSz ztFuel loopFuel : Nat) :
    Nat → DecSt ι → Nat → List Nat → Except ZErr (List Nat)
  | 0, _, _, _ => .error .outOfFuel
  | fuel + 1, st, m, acc =>
    match zread rd bufSz ztFuel loopFuel st m with
    | .error e => .error e
    | .ok (st2, out) =>
      if out.length = 0 then .ok acc
      else pullAll rd bufSz ztFuel loopFuel fuel st2 m (acc ++ out)

/-- The list input stream: `read n` delivers the next `min n remaining`
bytes; an exhausted stream keeps returning zero bytes. -/
def lsRead (src : List Nat) (n : Nat) : List Nat × List Nat :=
  (src.drop n, src.take n)

/-- An input stream that delivers nothing on its first read and behaves
like the list stream afterwards; it witnesses a source that returns zero
bytes mid-stream without being at end of data. -/
def stutterRead (src : Nat × List Nat) (n : Nat) : (Nat × List Nat) × List Nat :=
  if src.1 = 0 then ((1, src.2), []) else ((1, src.2.drop n), src.2.take n)

/-- The loop of `ZlibDecompressorT::read` as the specification words it:
continue exactly while the engine produced exactly `max_len` bytes with
input still pending, stop as soon as the produced output is less than
`max_len`.  It differs from `readLoop` only in the final loop guard and
exists to be compared with the embedded code. -/
def readLoopSpecWords {ι : Type} (rd : ι → Nat → ι × List Nat) (bufSz : Nat) :
    Nat → DecSt ι → Nat → List Nat → Except ZErr (DecSt ι × List Nat)
  | 0, _, _, _ => .error .outOfFuel
  | fuel + 1, st, m, produced =>
    let pre : DecSt ι ⊕ DecSt ι :=
      if st.availIn.length = 0 then
        let r := rd st.src bufSz
        let st1 : DecSt ι := { st with src := r.1, availIn := r.2 }
        if st.ret = .streamEnd ∧ r.2.length = 0 then .inl st1 else .inr st1
      else .inr st
    match pre with
    | .inl st1 => .ok (st1, [])
    | .inr st1 =>
      let q := inflateStep st1.phase st1.availIn (m - produced.length)
      let st2 : DecSt ι := { st1 with phase := q.ph, availIn := q.leftover, ret := q.st }
      if q.st = .streamEnd then .ok (st2, produced ++ q.out)
      else if q.st ≠ .ok then .error .engine
      else
        let produced2 := produced ++ q.out
        if produced2.length = m ∧ st2.availIn.length ≠ 0 then
          readLoopSpecWords rd bufSz fuel st2 m produced2
        else .ok (st2, produced2)

/-- The loop of `ZlibDecompressorT::read` with its guard rewritten from
`size == z_.avail_out` to the equivalent "no output produced yet". -/
def readLoopZeroGuard {ι : Type} (rd : ι → Nat → ι × List Nat) (bufSz : Nat) :
    Nat → DecSt ι → Nat → List Nat → Except ZErr (DecSt ι × List Nat)
  | 0, _, _, _ => .error .outOfFuel
  | fuel + 1, st, m, produced =>
    let pre : DecSt ι ⊕ DecSt ι :=
      if st.availIn.length = 0 then
        let r := rd st.src bufSz
        let st1 : DecSt ι := { st with src := r.1, availIn := r.2 }
        if st.ret = .streamEnd ∧ r.2.length = 0 then .inl st1 else .inr st1
      else .inr st
    match pre with
    | .inl st1 => .ok (st1, [])
    | .inr st1 =>
      let q := inflateStep st1.phase st1.availIn (m - produced.length)
      let st2 : DecSt ι := { st1 with phase := q.ph, availIn := q.leftover, ret := q.st }
      if q.st = .streamEnd then .ok (st2, produced ++ q.out)
      else if q.st ≠ .ok then .error .engine
      else
        let produced2 := produced ++ q.out
        if produced2.length = 0 then readLoopZeroGuard rd bufSz fuel st2 m produced2
        else .ok (st2, produced2)

/-- The always-short output sink: reports zero bytes written for every
request, so any nonempty write violates the sink contract. -/
def shortWrite (os : Unit) (_buf : List Nat) : Unit × Nat := (os, 0)

/-- The tail of one `readLoop` iteration after the refill step: one
engine step followed by the status checks and the loop guard.  `readLoop`
on positive fuel reduces to `readStep` once the refill branch is
settled; the lemmas below state this reduction. -/
def readStep {ι : Type} (rd : ι → Nat → ι × List Nat) (bufSz fuel : Nat)
    (st1 : DecSt ι) (m : Nat) (produced : List Nat) :
    Except ZErr (DecSt ι × List Nat) :=
  let q := inflateStep st1.phase st1.availIn (m - produced.length)
  let st2 : DecSt ι := { st1 with phase := q.ph, availIn := q.leftover, ret := q.st }
  if q.st = .streamEnd then .ok (st2, produced ++ q.out)
  else if q.st ≠ .ok then .error .engine
  else
    let produced2 := produced ++ q.out
    if m - produced2.length = m then readLoop rd bufSz fuel st2 m produced2
    else .ok (st2, produced2)

/-- The tail of one `readLoopZeroGuard` iteration after the refill step,
mirroring `readStep`. -/
def readStepZG {ι : Type} (rd : ι → Nat → ι × List Nat) (bufSz fuel : Nat)
    (st1 : DecSt ι) (m : Nat) (produced : List Nat) :
    Except ZErr (DecSt ι × List Nat) :=
  let q := inflateStep st1.phase st1.availIn (m - produced.length)
  let st2 : DecSt ι := { st1 with phase := q.ph, availIn := q.leftover, ret := q.st }
  if q.st = .streamEnd then .ok (st2, produced ++ q.out)
  else if q.st ≠ .ok then .error .engine
  else
    let produced2 := produced ++ q.out
    if produced2.length = 0 then readLoopZeroGuard rd bufSz fuel st2 m produced2
    else .ok (st2, produced2)

/-- Invariant of a decompressor session (over the list source) that is
still parsing the modelled stream's length prefix: the last status is
`Z_OK`, the gzip header (if any) has been consumed, the engine has
counted `a` ones, and the unconsumed bytes (scratch buffer then source)
are the remaining prefix, the marker, the not-yet-delivered data and the
trailing bytes `T0`. -/
def MidLen (st : DecSt (List Nat)) (data T0 : List Nat) : Prop :=
  st.ret = .ok ∧ (st.useGzip = true → st.gzHeaderDone = true) ∧
  ∃ a j, st.phase = .lenP a ∧ a + j = data.length ∧
    st.availIn ++ st.src = List.replicate j 1 ++ 0 :: (data ++ T0)

/-- Invariant of a decompressor session that is mid-body: the engine
still owes exactly `rest` (nonempty), and the unconsumed bytes are
`rest` followed by the trailing bytes `T0`. -/
def MidBody (st : DecSt (List Nat)) (rest T0 : List Nat) : Prop :=
  st.ret = .ok ∧ (st.useGzip = true → st.gzHeaderDone = true) ∧
  st.phase = .bodyP rest.length ∧ rest ≠ [] ∧
  st.availIn ++ st.src = rest ++ T0

/-- Invariant of a decompressor session whose engine has signaled its
logical end: only the trailing bytes `T0` remain unconsumed. -/
def EndSt (st : DecSt (List Nat)) (T0 : List Nat) : Prop :=
  st.ret = .streamEnd ∧ (st.useGzip = true → st.gzHeaderDone = true) ∧
  st.phase = .done ∧ st.availIn ++ st.src = T0

/-- Outcome of one mid-stream pull delivering `rest.take k`: either the
stream was already exhausted (`rest = []`), or the pull delivered a
nonempty prefix and the session is ended or still mid-body. -/
def PullPost (st2 : DecSt (List Nat)) (k : Nat) (rest T0 : List Nat) : Prop :=
  (rest = [] ∧ k = 0 ∧ EndSt st2 T0) ∨
  (1 ≤ k ∧ k = rest.length ∧ EndSt st2 T0) ∨
  (1 ≤ k ∧ k < rest.length ∧ MidBody st2 (rest.drop k) T0)

/-- State of `cybozu::XorShift`: the four 32-bit words. -/
structure XorShift where
  x : Nat
  y : Nat
  z : Nat
  w : Nat
  deriving DecidableEq

/-- `XorShift::init` (also run by the constructor): each word takes the
argument when it is nonzero and a fixed constant otherwise. -/
def xsInit (x y z w : Nat) : XorShift :=
  ⟨if x ≠ 0 then x else 123456789,
   if y ≠ 0 then y else 362436069,
   if z ≠ 0 then z else 521288629,
   if w ≠ 0 then w else 88675123⟩

/-- `XorShift::get32`: the xorshift128 step on 32-bit words. -/
def xsGet32 (s : XorShift) : XorShift × Nat :=
  let t := Nat.xor s.x (s.x * 2 ^ 11 % 2 ^ 32)
  let w2 := Nat.xor (Nat.xor s.w (s.w / 2 ^ 19)) (Nat.xor t (t / 2 ^ 8))
  (⟨s.y, s.z, s.w, w2⟩, w2)

/-- `XorShift::get64`: two `get32` calls, high word first. -/
def xsGet64 (s : XorShift) : XorShift × Nat :=
  let r1 := xsGet32 s
  let r2 := xsGet32 r1.1
  (r2.1, Nat.lor (r1.2 * 2 ^ 32) r2.2)

/-! ### Basic lemmas about the CRC accumulator -/

theorem crc32_nil (c : Nat) : crc32 c [] = c := by
  simp only [crc32, List.foldl_nil]
  exact Nat.xor_cancel_right _ _

theorem crc32_append (c : Nat) (a b : List Nat) :
    crc32 (crc32 c a) b = crc32 c (a ++ b) := by
  simp only [crc32, List.foldl_append]
  exact congrArg (fun t => Nat.xor (List.foldl crcByte t b) 0xFFFFFFFF)
    (Nat.xor_cancel_right _ _)

/-! ### C10: XorShift seeding -/

/-- C10: `XorShift::init` (hence also the constructor) sets each of the
four state words to the corresponding argument when it is nonzero and to
the constants `123456789`, `362436069`, `521288629`, `88675123`
respectively when it is zero; every state word is nonzero immediately
after `init`, and the all-defaulted call yields exactly the constant
state.  The `get32`/`get64` stream is a pure function of this state, so
it is a deterministic function of the seed arguments. -/
theorem xorShift_init_spec (x y z w : Nat) :
    (xsInit x y z w).x = (if x ≠ 0 then x else 123456789) ∧
    (xsInit x y z w).y = (if y ≠ 0 then y else 362436069) ∧
    (xsInit x y z w).z = (if z ≠ 0 then z else 521288629) ∧
    (xsInit x y z w).w = (if w ≠ 0 then w else 88675123) ∧
    (xsInit x y z w).x ≠ 0 ∧ (xsInit x y z w).y ≠ 0 ∧
    (xsInit x y z w).z ≠ 0 ∧ (xsInit x y z w).w ≠ 0 ∧
    xsInit 0 0 0 0 = ⟨123456789, 362436069, 521288629, 88675123⟩ := by
  refine ⟨rfl, rfl, rfl, rfl, ?_, ?_, ?_, ?_, rfl⟩ <;>
    · simp only [xsInit]
      split
      · assumption
      · decide

/-! ### C5: the gzip header written at construction -/

/-- C5: constructing a compressor session in gzip mode writes exactly the
fixed 10-byte gzip header `1F 8B 08 00 00 00 00 00 00 03` (magic, method
8 = deflate, flags 0, mtime 0, extra-flags 0, OS 3 = unix) to the sink
before the constructor returns, hence before any `exec` call; the fresh
state has zeroed accumulators and an unfinished engine. -/
theorem mkComp_gzip_writes_header (os : List Nat) :
    mkComp lsWrite os true =
      .ok ⟨os ++ [0x1f, 0x8b, 0x08, 0, 0, 0, 0, 0, 0, 3], 0, 0, ⟨[], none⟩, false, true⟩ ∧
    gzipHeaderBytes.length = 10 := by
  exact ⟨rfl, rfl⟩

/-! ### C7: the sink-write contract -/

/-- C7: every internal sink write of `n` bytes checks the count the sink
reports: a count different from `n` aborts at once with the short-write
error and no retry occurs, while a count of exactly `n` raises nothing.
Concretely, a sink reporting a short count makes the gzip constructor's
header write and a flush's drain write fail with `sinkWrite`, and the
full-count list sink always succeeds. -/
theorem compWrite_contract :
    (∀ (ω : Type) (w : ω → List Nat → ω × Nat) (os : ω) (buf : List Nat),
      compWrite w os buf =
        if (w os buf).2 ≠ buf.length then .error .sinkWrite else .ok (w os buf).1) ∧
    mkComp shortWrite () true = .error .sinkWrite ∧
    compFlush shortWrite 4 10 ⟨(), 0, 0, ⟨[5], none⟩, false, false⟩ = .error .sinkWrite ∧
    (∀ os buf : List Nat, compWrite lsWrite os buf = .ok (os ++ buf)) := by
  refine ⟨fun ω w os buf => rfl, rfl, rfl, fun os buf => ?_⟩
  simp [compWrite, lsWrite]

/-! ### C2: feeding after finish -/

/-- C2 counterexample: the claim says every `exec` after `flush()` fails
with a distinguishable error, but an `exec` with an empty buffer after
`flush` silently succeeds and leaves the session state unchanged.  The
state below is exactly the one produced by a raw-mode session that fed
`[5]` and flushed. -/
theorem exec_after_flush_empty_succeeds :
    compressChunks lsWrite [] false [[5]] 4 10 =
      .ok ⟨[1, 0, 5], 0, 0, ⟨[], some []⟩, true, false⟩ ∧
    (⟨[1, 0, 5], 0, 0, ⟨[], some []⟩, true, false⟩ : CompSt (List Nat)).isFlushCalled = true ∧
    compExec lsWrite 4 1 ⟨[1, 0, 5], 0, 0, ⟨[], some []⟩, true, false⟩ [] =
      .ok ⟨[1, 0, 5], 0, 0, ⟨[], some []⟩, true, false⟩ := by
  exact ⟨rfl, rfl, rfl⟩

/-- C2 (amended): after `flush()` has been called, an `exec` with a
nonempty buffer fails deterministically: the engine rejects input on a
finalized stream and `exec` turns that into its engine error, for every
sink, buffer size and fuel.  An `exec` with an empty buffer, however, is
a silent no-op: it returns without error and leaves the state unchanged
(the `while` loop body never runs, so the engine and the sink are never
touched). -/
theorem exec_after_flush_spec :
    (∀ (ω : Type) (w : ω → List Nat → ω × Nat) (bufSz fuel : Nat)
        (st : CompSt ω) (buf : List Nat) (q : List Nat),
      st.dz.pending = some q → buf ≠ [] →
      compExec w bufSz (fuel + 1) st buf = .error .engine) ∧
    (∀ (ω : Type) (w : ω → List Nat → ω × Nat) (bufSz fuel : Nat) (st : CompSt ω),
      st.totalSize < 2 ^ 32 →
      compExec w bufSz (fuel + 1) st [] = .ok st) := by
  constructor
  · intro ω w bufSz fuel st buf q hq hbuf
    have hlen : 0 < buf.length := List.length_pos.mpr hbuf
    cases hg : st.useGzip <;>
      simp [compExec, execLoop, deflateStep, hg, hq, hlen]
  · intro ω w bufSz fuel st hts
    obtain ⟨os, crc, ts, dz, fl, gz⟩ := st
    have h2 : ts % 4294967296 = ts := Nat.mod_eq_of_lt hts
    cases gz <;> simp_all [compExec, execLoop, crc32_nil]

/-! ### Lemmas about the modelled inflate step -/

theorem inflateStep_out_length (ph : IPhase) (inp : List Nat) (cap : Nat) :
    (inflateStep ph inp cap).out.length ≤ cap := by
  induction inp generalizing ph cap with
  | nil =>
    cases ph with
    | lenP a => simp [inflateStep]
    | bodyP r => cases r <;> simp [inflateStep]
    | done => simp [inflateStep]
  | cons b rest ih =>
    cases ph with
    | lenP a =>
      by_cases h1 : b = 1
      · simpa [inflateStep, h1] using ih (.lenP (a + 1)) cap
      · by_cases h0 : b = 0
        · simpa [inflateStep, h1, h0] using ih (.bodyP a) cap
        · simp [inflateStep, h1, h0]
    | bodyP r =>
      cases r with
      | zero => simp [inflateStep]
      | succ r =>
        cases cap with
        | zero => simp [inflateStep]
        | succ cap =>
          have := ih (.bodyP r) cap
          simp only [inflateStep, List.length_cons]
          omega
    | done => simp [inflateStep]

theorem inflateStep_ok_leftover (ph : IPhase) (inp : List Nat) (cap : Nat) :
    (inflateStep ph inp cap).st = .ok → (inflateStep ph inp cap).out.length < cap →
    (inflateStep ph inp cap).leftover = [] := by
  induction inp generalizing ph cap with
  | nil =>
    cases ph with
    | lenP a => simp [inflateStep]
    | bodyP r => cases r <;> simp [inflateStep]
    | done => simp [inflateStep]
  | cons b rest ih =>
    cases ph with
    | lenP a =>
      by_cases h1 : b = 1
      · simpa [inflateStep, h1] using ih (.lenP (a + 1)) cap
      · by_cases h0 : b = 0
        · simpa [inflateStep, h1, h0] using ih (.bodyP a) cap
        · simp [inflateStep, h1, h0]
    | bodyP r =>
      cases r with
      | zero => simp [inflateStep]
      | succ r =>
        cases cap with
        | zero => simp [inflateStep]
        | succ cap =>
          have := ih (.bodyP r) cap
          simp only [inflateStep, List.length_cons]
          intro hok hlt
          exact this hok (by omega)
    | done => simp [inflateStep]

/-! ### C9: pulls after end-of-stream -/

/-- C9: once the engine has signaled its logical end (`ret_` is
`Z_STREAM_END`, the engine is in its done state) and the source is
exhausted, every further `read` call returns zero bytes without error
and leaves the session state completely unchanged, for every `max_len`,
buffer size and fuel — hence any number of further calls behaves the
same and the session never leaves the ended state. -/
theorem post_end_pull_returns_empty (st : DecSt (List Nat))
    (hret : st.ret = .streamEnd) (hph : st.phase = .done)
    (hgz : st.useGzip = true → st.gzHeaderDone = true) (hsrc : st.src = [])
    (bufSz ztFuel lf m : Nat) :
    zread lsRead bufSz ztFuel (lf + 1) st m = .ok (st, []) := by
  obtain ⟨src, ph, availIn, ret, gz, hd⟩ := st
  simp only at hret hph hsrc hgz
  subst hret hph hsrc
  rcases m with _ | m
  · rfl
  cases gz with
  | false =>
    cases availIn <;> simp [zread, readLoop, inflateStep, lsRead]
  | true =>
    have hd1 : hd = true := hgz rfl
    subst hd1
    cases availIn <;> simp [zread, readLoop, inflateStep, lsRead]

/-- Closed witness for the post-end property at a concrete ended
session. -/
theorem post_end_pull_returns_empty_holds :
    zread lsRead 4 1 7 (⟨[], .done, [8, 0, 0, 0], .streamEnd, true, true⟩ : DecSt (List Nat)) 3 =
      .ok (⟨[], .done, [8, 0, 0, 0], .streamEnd, true, true⟩, []) :=
  post_end_pull_returns_empty _ rfl rfl (fun _ => rfl) rfl 4 1 6 3

/-! ### C3: a zero-byte source read during body decompression -/

/-- C3: during body decompression (header already consumed, engine in
its length or body phase, `ret_` still `Z_OK`), a source read that
returns zero bytes is not treated as end-of-stream and raises no error:
the iteration leaves everything but the source state unchanged and the
loop retries.  The closed conjunct shows a full `read` on a source that
first returns zero bytes and delivers the stream afterwards: the pull
still returns the decompressed data. -/
theorem zero_read_mid_stream_retried :
    (∀ (ι : Type) (rd : ι → Nat → ι × List Nat) (bufSz fuel m a r : Nat)
        (st : DecSt ι) (s2 : ι),
      st.availIn = [] → st.ret = .ok → rd st.src bufSz = (s2, []) →
      (st.phase = .lenP a ∨ st.phase = .bodyP (r + 1)) →
      readLoop rd bufSz (fuel + 1) st m [] =
        readLoop rd bufSz fuel { st with src := s2 } m []) ∧
    zread stutterRead 4 1 9 (mkDec (0, [1, 0, 7]) false) 5 =
      .ok (⟨(1, []), .done, [], .streamEnd, false, false⟩, [7]) := by
  constructor
  · intro ι rd bufSz fuel m a r st s2 hA hret hrd hph
    obtain ⟨src, ph, availIn, ret, gz, hd⟩ := st
    simp only at hA hret hrd ⊢
    subst hA hret
    rcases hph with hph | hph <;>
      · simp only at hph
        subst hph
        simp [readLoop, hrd, inflateStep]
  · rfl

/-! ### C4: the drive-loop guard of the decompressor -/

/-- C4 counterexample: the claim's loop rule ("continue exactly while
the engine produced exactly `max_len` bytes with input still pending;
stop as soon as the produced output is less than `max_len`") predicts
that this pull, whose first iteration produces zero bytes with no stream
end, stops and returns nothing; the code's guard `size == z_.avail_out`
("no output yet") continues instead and the pull returns the first data
byte.  Both loops are run on the same concrete session. -/
theorem read_loop_guard_counterexample :
    readLoop lsRead 2 9 (mkDec [1, 1, 0, 5, 6] false) 2 [] =
      .ok (⟨[6], .bodyP 1, [], .ok, false, false⟩, [5]) ∧
    readLoopSpecWords lsRead 2 9 (mkDec [1, 1, 0, 5, 6] false) 2 [] =
      .ok (⟨[0, 5, 6], .lenP 2, [], .ok, false, false⟩, []) ∧
    ([5] : List Nat) ≠ [] := by
  exact ⟨rfl, rfl, by decide⟩

/-! ### Reduction lemmas for the decompressor drive loop -/

theorem readLoop_step_no_refill {ι : Type} (rd : ι → Nat → ι × List Nat)
    (bufSz fuel m : Nat) (st : DecSt ι) (produced : List Nat)
    (hA : st.availIn ≠ []) :
    readLoop rd bufSz (fuel + 1) st m produced = readStep rd bufSz fuel st m produced := by
  obtain ⟨src, ph, availIn, ret, gz, hd⟩ := st
  cases availIn with
  | nil => simp at hA
  | cons b l => rfl

theorem readLoop_step_refill {ι : Type} (rd : ι → Nat → ι × List Nat)
    (bufSz fuel m : Nat) (st : DecSt ι) (produced : List Nat)
    (hA : st.availIn = []) (hne : st.ret = .streamEnd → (rd st.src bufSz).2 ≠ []) :
    readLoop rd bufSz (fuel + 1) st m produced =
      readStep rd bufSz fuel
        { st with src := (rd st.src bufSz).1, availIn := (rd st.src bufSz).2 } m produced := by
  obtain ⟨src, ph, availIn, ret, gz, hd⟩ := st
  dsimp only at hA hne ⊢
  subst hA
  rcases hr : rd src bufSz with ⟨s2, chunk⟩
  rw [hr] at hne
  dsimp only at hne
  simp only [readLoop, List.length_nil, if_pos rfl, hr]
  cases ret with
  | streamEnd =>
    have h2 : chunk ≠ [] := hne rfl
    cases chunk with
    | nil => exact absurd rfl h2
    | cons b l => rfl
  | ok => rfl
  | streamErr => rfl
  | dataErr => rfl

theorem readLoop_step_refill_end {ι : Type} (rd : ι → Nat → ι × List Nat)
    (bufSz fuel m : Nat) (st : DecSt ι) (produced : List Nat)
    (hA : st.availIn = []) (hret : st.ret = .streamEnd)
    (hrd : (rd st.src bufSz).2 = []) :
    readLoop rd bufSz (fuel + 1) st m produced =
      .ok ({ st with src := (rd st.src bufSz).1, availIn := (rd st.src bufSz).2 }, []) := by
  obtain ⟨src, ph, availIn, ret, gz, hd⟩ := st
  dsimp only at hA hret hrd ⊢
  subst hA hret
  rcases hr : rd src bufSz with ⟨s2, chunk⟩
  rw [hr] at hrd
  dsimp only at hrd
  subst hrd
  simp [readLoop, hr]

theorem zeroGuard_step_no_refill {ι : Type} (rd : ι → Nat → ι × List Nat)
    (bufSz fuel m : Nat) (st : DecSt ι) (produced : List Nat)
    (hA : st.availIn ≠ []) :
    readLoopZeroGuard rd bufSz (fuel + 1) st m produced =
      readStepZG rd bufSz fuel st m produced := by
  obtain ⟨src, ph, availIn, ret, gz, hd⟩ := st
  cases availIn with
  | nil => simp at hA
  | cons b l => rfl

theorem zeroGuard_step_refill {ι : Type} (rd : ι → Nat → ι × List Nat)
    (bufSz fuel m : Nat) (st : DecSt ι) (produced : List Nat)
    (hA : st.availIn = []) (hne : st.ret = .streamEnd → (rd st.src bufSz).2 ≠ []) :
    readLoopZeroGuard rd bufSz (fuel + 1) st m produced =
      readStepZG rd bufSz fuel
        { st with src := (rd st.src bufSz).1, availIn := (rd st.src bufSz).2 } m produced := by
  obtain ⟨src, ph, availIn, ret, gz, hd⟩ := st
  dsimp only at hA hne ⊢
  subst hA
  rcases hr : rd src bufSz with ⟨s2, chunk⟩
  rw [hr] at hne
  dsimp only at hne
  simp only [readLoopZeroGuard, List.length_nil, if_pos rfl, hr]
  cases ret with
  | streamEnd =>
    have h2 : chunk ≠ [] := hne rfl
    cases chunk with
    | nil => exact absurd rfl h2
    | cons b l => rfl
  | ok => rfl
  | streamErr => rfl
  | dataErr => rfl

theorem zeroGuard_step_refill_end {ι : Type} (rd : ι → Nat → ι × List Nat)
    (bufSz fuel m : Nat) (st : DecSt ι) (produced : List Nat)
    (hA : st.availIn = []) (hret : st.ret = .streamEnd)
    (hrd : (rd st.src bufSz).2 = []) :
    readLoopZeroGuard rd bufSz (fuel + 1) st m produced =
      .ok ({ st with src := (rd st.src bufSz).1, availIn := (rd st.src bufSz).2 }, []) := by
  obtain ⟨src, ph, availIn, ret, gz, hd⟩ := st
  dsimp only at hA hret hrd ⊢
  subst hA hret
  rcases hr : rd src bufSz with ⟨s2, chunk⟩
  rw [hr] at hrd
  dsimp only at hrd
  subst hrd
  simp [readLoopZeroGuard, hr]

theorem readStep_guard_eq {ι : Type} (rd : ι → Nat → ι × List Nat)
    (bufSz fuel m : Nat) (st1 : DecSt ι) (produced : List Nat)
    (hp : produced.length ≤ m)
    (ihf : ∀ (st2 : DecSt ι) (p2 : List Nat), p2.length ≤ m →
      readLoop rd bufSz fuel st2 m p2 = readLoopZeroGuard rd bufSz fuel st2 m p2) :
    readStep rd bufSz fuel st1 m produced = readStepZG rd bufSz fuel st1 m produced := by
  have hlen : (inflateStep st1.phase st1.availIn (m - produced.length)).out.length ≤
      m - produced.length := inflateStep_out_length _ _ _
  by_cases h1 : (inflateStep st1.phase st1.availIn (m - produced.length)).st = .streamEnd
  · simp [readStep, readStepZG, h1]
  · by_cases h2 : (inflateStep st1.phase st1.availIn (m - produced.length)).st = .ok
    · have hple : (produced ++ (inflateStep st1.phase st1.availIn (m - produced.length)).out).length ≤ m := by
        rw [List.length_append]; omega
      by_cases hz : (produced ++ (inflateStep st1.phase st1.availIn (m - produced.length)).out).length = 0
      · have hm : m - (produced ++ (inflateStep st1.phase st1.availIn (m - produced.length)).out).length = m := by
          omega
        simp only [readStep, readStepZG, if_neg h1, h2, ne_eq, not_true_eq_false, if_false,
          hm, if_pos rfl, if_pos hz]
        exact ihf _ _ hple
      · have hm : ¬(m - (produced ++ (inflateStep st1.phase st1.availIn (m - produced.length)).out).length = m) := by
          omega
        simp only [readStep, readStepZG, if_neg h1, h2, ne_eq, not_true_eq_false, if_false,
          if_neg hm, if_neg hz]
    · simp [readStep, readStepZG, if_neg h1, h2]

theorem readLoop_eq_zeroGuard {ι : Type} (rd : ι → Nat → ι × List Nat) (bufSz : Nat) :
    ∀ (fuel m : Nat) (st : DecSt ι) (produced : List Nat), produced.length ≤ m →
      readLoop rd bufSz fuel st m produced = readLoopZeroGuard rd bufSz fuel st m produced := by
  intro fuel
  induction fuel with
  | zero => intro m st produced _; rfl
  | succ fuel ih =>
    intro m st produced hp
    by_cases hA : st.availIn = []
    · by_cases hret : st.ret = .streamEnd
      · by_cases hrd : (rd st.src bufSz).2 = []
        · rw [readLoop_step_refill_end rd bufSz fuel m st produced hA hret hrd,
            zeroGuard_step_refill_end rd bufSz fuel m st produced hA hret hrd]
        · rw [readLoop_step_refill rd bufSz fuel m st produced hA (fun _ => hrd),
            zeroGuard_step_refill rd bufSz fuel m st produced hA (fun _ => hrd)]
          exact readStep_guard_eq rd bufSz fuel m _ produced hp (fun st2 p2 h => ih m st2 p2 h)
      · rw [readLoop_step_refill rd bufSz fuel m st produced hA (fun h => absurd h hret),
          zeroGuard_step_refill rd bufSz fuel m st produced hA (fun h => absurd h hret)]
        exact readStep_guard_eq rd bufSz fuel m _ produced hp (fun st2 p2 h => ih m st2 p2 h)
    · rw [readLoop_step_no_refill rd bufSz fuel m st produced hA,
        zeroGuard_step_no_refill rd bufSz fuel m st produced hA]
      exact readStep_guard_eq rd bufSz fuel m st produced hp (fun st2 p2 h => ih m st2 p2 h)

theorem readStep_short {ι : Type} (rd : ι → Nat → ι × List Nat)
    (bufSz fuel m : Nat) (st1 sf : DecSt ι) (out : List Nat)
    (ihf : ∀ (sa sb : DecSt ι) (o : List Nat),
      readLoop rd bufSz fuel sa m [] = .ok (sb, o) → o.length < m →
      sb.ret = .streamEnd ∨ sb.availIn = [])
    (h : readStep rd bufSz fuel st1 m [] = .ok (sf, out)) (hlt : out.length < m) :
    sf.ret = .streamEnd ∨ sf.availIn = [] := by
  rw [readStep] at h
  by_cases h1 : (inflateStep st1.phase st1.availIn (m - ([] : List Nat).length)).st = .streamEnd
  · rw [if_pos h1] at h
    cases h
    exact Or.inl h1
  · rw [if_neg h1] at h
    by_cases h2 : (inflateStep st1.phase st1.availIn (m - ([] : List Nat).length)).st = .ok
    · rw [if_neg (by simpa using h2)] at h
      by_cases h3 : m - (([] : List Nat) ++
          (inflateStep st1.phase st1.availIn (m - ([] : List Nat).length)).out).length = m
      · rw [if_pos h3] at h
        have hb := inflateStep_out_length st1.phase st1.availIn (m - ([] : List Nat).length)
        have hout : (([] : List Nat) ++
            (inflateStep st1.phase st1.availIn (m - ([] : List Nat).length)).out) = [] := by
          have hlz : (inflateStep st1.phase st1.availIn (m - ([] : List Nat).length)).out.length = 0 := by
            simp only [List.length_nil, Nat.sub_zero] at hb h3 ⊢
            rw [List.nil_append] at h3
            omega
          simpa using List.eq_nil_of_length_eq_zero hlz
        rw [hout] at h
        exact ihf _ _ _ h hlt
      · rw [if_neg h3] at h
        cases h
        right
        apply inflateStep_ok_leftover _ _ _ h2
        simpa using hlt
    · rw [if_pos h2] at h
      cases h

theorem readLoop_short_return {ι : Type} (rd : ι → Nat → ι × List Nat) (bufSz : Nat) :
    ∀ (fuel m : Nat) (st sf : DecSt ι) (out : List Nat),
      readLoop rd bufSz fuel st m [] = .ok (sf, out) → out.length < m →
      sf.ret = .streamEnd ∨ sf.availIn = [] := by
  intro fuel
  induction fuel with
  | zero => intro m st sf out h _; cases h
  | succ fuel ih =>
    intro m st sf out h hlt
    by_cases hA : st.availIn = []
    · by_cases hret : st.ret = .streamEnd
      · by_cases hrd : (rd st.src bufSz).2 = []
        · rw [readLoop_step_refill_end rd bufSz fuel m st [] hA hret hrd] at h
          cases h
          exact Or.inr hrd
        · rw [readLoop_step_refill rd bufSz fuel m st [] hA (fun _ => hrd)] at h
          exact readStep_short rd bufSz fuel m _ sf out (fun sa sb o => ih m sa sb o) h hlt
      · rw [readLoop_step_refill rd bufSz fuel m st [] hA (fun hh => absurd hh hret)] at h
        exact readStep_short rd bufSz fuel m _ sf out (fun sa sb o => ih m sa sb o) h hlt
    · rw [readLoop_step_no_refill rd bufSz fuel m st [] hA] at h
      exact readStep_short rd bufSz fuel m st sf out (fun sa sb o => ih m sa sb o) h hlt

/-- C4 (amended): the engine-drive loop of `read` continues exactly
while the engine has produced zero bytes of output (the code's guard
`size == z_.avail_out`) and no stream end or error has occurred — the
loop is extensionally equal to one whose guard is "total produced output
is still empty" —, not while it has produced exactly `max_len` bytes; and
a pull that returns fewer than `max_len` bytes does so only because the
engine signaled its logical end or consumed all currently available
input (`avail_in` empty on return). -/
theorem read_drive_loop_spec :
    (∀ (ι : Type) (rd : ι → Nat → ι × List Nat) (bufSz fuel m : Nat)
        (st : DecSt ι) (produced : List Nat), produced.length ≤ m →
      readLoop rd bufSz fuel st m produced = readLoopZeroGuard rd bufSz fuel st m produced) ∧
    (∀ (ι : Type) (rd : ι → Nat → ι × List Nat) (bufSz fuel m : Nat)
        (st sf : DecSt ι) (out : List Nat),
      readLoop rd bufSz fuel st m [] = .ok (sf, out) → out.length < m →
      sf.ret = .streamEnd ∨ sf.availIn = []) :=
  ⟨fun _ rd bufSz fuel m st produced hp => readLoop_eq_zeroGuard rd bufSz fuel m st produced hp,
   fun _ rd bufSz fuel m st sf out h hlt => readLoop_short_return rd bufSz fuel m st sf out h hlt⟩

/-- Closed witness for the amended drive-loop description at a concrete
session. -/
theorem read_drive_loop_spec_witness :
    (List.length ([] : List Nat) ≤ 3 ∧
      readLoop lsRead 2 9 (mkDec [1, 0, 5] false) 3 [] =
        readLoopZeroGuard lsRead 2 9 (mkDec [1, 0, 5] false) 3 []) ∧
    (List.length [5] < 3 ∧
      ((⟨[], .done, [], .streamEnd, false, false⟩ : DecSt (List Nat)).ret = .streamEnd ∨
        (⟨[], .done, [], .streamEnd, false, false⟩ : DecSt (List Nat)).availIn = [])) :=
  ⟨⟨by decide, read_drive_loop_spec.1 _ lsRead 2 9 3 (mkDec [1, 0, 5] false) [] (by decide)⟩,
   ⟨by decide, read_drive_loop_spec.2 _ lsRead 2 9 3 (mkDec [1, 0, 5] false)
      ⟨[], .done, [], .streamEnd, false, false⟩ [5] (by rfl) (by decide)⟩⟩

/-- Closed witness for the use-after-finish behaviour at the concrete
post-flush session of the counterexample. -/
theorem exec_after_flush_spec_witness :
    ((⟨[1, 0, 5], 0, 0, ⟨[], some []⟩, true, false⟩ : CompSt (List Nat)).dz.pending = some [] ∧
      ([9] : List Nat) ≠ [] ∧
      compExec lsWrite 4 1 ⟨[1, 0, 5], 0, 0, ⟨[], some []⟩, true, false⟩ [9] = .error .engine) ∧
    ((⟨[1, 0, 5], 0, 0, ⟨[], some []⟩, true, false⟩ : CompSt (List Nat)).totalSize < 2 ^ 32 ∧
      compExec lsWrite 4 1 ⟨[1, 0, 5], 0, 0, ⟨[], some []⟩, true, false⟩ [] =
        .ok ⟨[1, 0, 5], 0, 0, ⟨[], some []⟩, true, false⟩) :=
  ⟨⟨rfl, by decide, exec_after_flush_spec.1 _ lsWrite 4 0 _ [9] [] rfl (by decide)⟩,
   ⟨by decide, exec_after_flush_spec.2 _ lsWrite 4 0 _ (by decide)⟩⟩

/-- Closed witness for the zero-read retry property at a concrete
mid-stream session over an empty-returning source. -/
theorem zero_read_mid_stream_retried_witness :
    ((⟨[], .bodyP 1, [], .ok, false, false⟩ : DecSt (List Nat)).availIn = [] ∧
      (⟨[], .bodyP 1, [], .ok, false, false⟩ : DecSt (List Nat)).ret = .ok ∧
      (fun (s : List Nat) (_ : Nat) => (s, ([] : List Nat)))
        (⟨[], .bodyP 1, [], .ok, false, false⟩ : DecSt (List Nat)).src 4 = ([], []) ∧
      ((⟨[], .bodyP 1, [], .ok, false, false⟩ : DecSt (List Nat)).phase = .lenP 0 ∨
        (⟨[], .bodyP 1, [], .ok, false, false⟩ : DecSt (List Nat)).phase = .bodyP (0 + 1)) ∧
      readLoop (fun (s : List Nat) (_ : Nat) => (s, ([] : List Nat))) 4 (3 + 1)
          ⟨[], .bodyP 1, [], .ok, false, false⟩ 2 [] =
        readLoop (fun (s : List Nat) (_ : Nat) => (s, ([] : List Nat))) 4 3
          ⟨[], .bodyP 1, [], .ok, false, false⟩ 2 []) :=
  ⟨rfl, rfl, rfl, Or.inr rfl,
    zero_read_mid_stream_retried.1 _ (fun s _ => (s, [])) 4 3 2 0 0
      ⟨[], .bodyP 1, [], .ok, false, false⟩ [] rfl rfl rfl (Or.inr rfl)⟩

/-! ### Lemmas about gzip header parsing -/

theorem lsRead_readAll (pre z : List Nat) :
    readAllF lsRead (pre ++ z) pre.length = .ok (z, pre) := by
  simp [readAllF, lsRead, List.take_left, List.drop_left]

theorem readAllF_error {ι : Type} (rd : ι → Nat → ι × List Nat) (src : ι)
    (n : Nat) (e : ZErr) : readAllF rd src n = .error e → e = .truncated := by
  intro h
  simp only [readAllF] at h
  split at h
  · cases h
    rfl
  · cases h

theorem skipF_error {ι : Type} (rd : ι → Nat → ι × List Nat) :
    ∀ (n : Nat) (src : ι) (e : ZErr), skipF rd src n = .error e → e = .truncated := by
  intro n
  induction n with
  | zero =>
    intro src e h
    cases h
  | succ n ih =>
    intro src e
    simp only [skipF]
    cases hra : readAllF rd src 1 with
    | error e2 =>
      intro h
      cases h
      exact readAllF_error rd src 1 e hra
    | ok r => exact ih r.1 e

theorem skipToZeroF_error {ι : Type} (rd : ι → Nat → ι × List Nat) :
    ∀ (fuel : Nat) (src : ι) (e : ZErr), skipToZeroF rd fuel src = .error e →
      e = .truncated ∨ e = .outOfFuel := by
  intro fuel
  induction fuel with
  | zero =>
    intro src e h
    cases h
    exact Or.inr rfl
  | succ fuel ih =>
    intro src e h
    simp only [skipToZeroF] at h
    split at h
    next e2 heq =>
      cases h
      exact Or.inl (readAllF_error rd src 1 _ heq)
    next r heq =>
      split at h
      · cases h
      · exact ih r.1 e h

theorem skipOptionalFields_error {ι : Type} (rd : ι → Nat → ι × List Nat)
    (ztF flg : Nat) (s1 : ι) (e : ZErr) :
    skipOptionalFields rd ztF flg s1 = .error e → e ≠ .badHeader := by
  intro h
  simp only [skipOptionalFields] at h
  split at h
  next e1 heq =>
    cases h
    -- classify the error of the FEXTRA block
    split at heq
    · split at heq
      next e2 heq2 =>
        cases heq
        have := readAllF_error rd s1 2 _ heq2
        subst this
        simp
      next p heq2 =>
        have := skipF_error rd _ _ _ heq
        subst this
        simp
    · cases heq
  next s2 heq =>
    split at h
    next e1 heq2 =>
      cases h
      have he : e = .truncated ∨ e = .outOfFuel := by
        split at heq2
        · exact skipToZeroF_error rd _ _ _ heq2
        · cases heq2
      rcases he with h2 | h2 <;> (subst h2; simp)
    next s3 heq2 =>
      split at h
      next e1 heq3 =>
        cases h
        have he : e = .truncated ∨ e = .outOfFuel := by
          split at heq3
          · exact skipToZeroF_error rd _ _ _ heq3
          · cases heq3
        rcases he with h2 | h2 <;> (subst h2; simp)
      next s4 heq3 =>
        split at h
        · have := skipF_error rd _ _ _ h
          subst this
          simp
        · cases h

theorem skipOptionalFields_flags_zero {ι : Type} (rd : ι → Nat → ι × List Nat)
    (ztF : Nat) (s1 : ι) : skipOptionalFields rd ztF 0 s1 = .ok s1 := by
  have h4 : Nat.land 0 4 = 0 := by decide
  have h8 : Nat.land 0 8 = 0 := by decide
  have h16 : Nat.land 0 16 = 0 := by decide
  have h2 : Nat.land 0 2 = 0 := by decide
  simp [skipOptionalFields, h4, h8, h16, h2]

theorem skipF_exact (e z : List Nat) : skipF lsRead (e ++ z) e.length = .ok z := by
  induction e with
  | nil => rfl
  | cons b e2 ih =>
    simp only [List.length_cons, List.cons_append, skipF, readAllF, lsRead]
    simpa using ih

theorem skipToZeroF_exact :
    ∀ (nm : List Nat) (fuel : Nat) (z : List Nat), 0 ∉ nm → nm.length + 1 ≤ fuel →
      skipToZeroF lsRead fuel (nm ++ 0 :: z) = .ok z := by
  intro nm
  induction nm with
  | nil =>
    intro fuel z _ hf
    cases fuel with
    | zero => omega
    | succ fuel => simp [skipToZeroF, readAllF, lsRead]
  | cons b nm2 ih =>
    intro fuel z hmem hf
    cases fuel with
    | zero => simp at hf
    | succ fuel =>
      have hb : ¬(b = 0) := fun hb0 => hmem (by rw [hb0]; exact List.mem_cons_self 0 nm2)
      simp only [List.cons_append, skipToZeroF, readAllF, lsRead, List.take_succ_cons,
        List.take_zero, List.drop_succ_cons, List.drop_zero, List.length_cons,
        List.length_nil, List.headD_cons]
      rw [if_neg (by simp)]
      dsimp only
      rw [List.headD_cons, if_neg hb]
      exact ih fuel z (fun hx => hmem (List.mem_cons_of_mem b hx)) (by
        simp only [List.length_cons] at hf
        omega)

theorem skipOptionalFields_skips (x0 x1 b1 b2 ztF : Nat) (e nm cm z : List Nat)
    (he : e.length = x0 + 256 * x1) (hnm : 0 ∉ nm) (hcm : 0 ∉ cm)
    (hf1 : nm.length + 1 ≤ ztF) (hf2 : cm.length + 1 ≤ ztF) :
    skipOptionalFields lsRead ztF 30
      (x0 :: x1 :: (e ++ (nm ++ 0 :: (cm ++ 0 :: (b1 :: b2 :: z))))) = .ok z := by
  have hc4 : Nat.land 30 4 ≠ 0 := by decide
  have hc8 : Nat.land 30 8 ≠ 0 := by decide
  have hc16 : Nat.land 30 16 ≠ 0 := by decide
  have hc2 : Nat.land 30 2 ≠ 0 := by decide
  have hra2 : readAllF lsRead (x0 :: x1 :: (e ++ (nm ++ 0 :: (cm ++ 0 :: (b1 :: b2 :: z))))) 2 =
      .ok ((e ++ (nm ++ 0 :: (cm ++ 0 :: (b1 :: b2 :: z)))), [x0, x1]) :=
    lsRead_readAll [x0, x1] _
  have hsk1 : skipF lsRead (e ++ (nm ++ 0 :: (cm ++ 0 :: (b1 :: b2 :: z)))) (x0 + 256 * x1) =
      .ok (nm ++ 0 :: (cm ++ 0 :: (b1 :: b2 :: z))) := by
    rw [← he]
    exact skipF_exact e _
  simp only [skipOptionalFields]
  rw [if_pos hc4, hra2]
  dsimp only
  rw [show ([x0, x1] : List Nat).getD 0 0 + 256 * ([x0, x1] : List Nat).getD 1 0 =
    x0 + 256 * x1 from rfl]
  rw [hsk1]
  dsimp only
  rw [if_pos hc8, skipToZeroF_exact nm ztF _ hnm hf1]
  dsimp only
  rw [if_pos hc16, skipToZeroF_exact cm ztF _ hcm hf2]
  dsimp only
  rw [if_pos hc2]
  exact skipF_exact [b1, b2] z

/-! ### C8: gzip header validation on the first pull -/

/-- C8: the gzip header check of the first pull.  With the full 10-byte
header available, `readGzipHeader` raises the bad-gzip-header error
exactly when the magic bytes are not `1F 8B`, the method byte is not 8,
or a reserved flag bit (mask `E0`) is set.  When the checks pass and the
flags byte is zero, exactly the 10 header bytes are consumed and no
error is raised; when the checks pass with all four optional-field flags
set (`1E`), the extra field (with its 2-byte little-endian length), the
zero-terminated name and comment, and the 2-byte header CRC are all
skipped.  At the session level, a failing check makes the first `read`
with positive `max_len` fail with the bad-header error. -/
theorem gzip_header_validation :
    (∀ (h rest : List Nat) (ztF : Nat), h.length = 10 →
      (readGzipHeaderF lsRead ztF (h ++ rest) = .error .badHeader ↔
        ¬(h.getD 0 0 = 0x1f ∧ h.getD 1 0 = 0x8b ∧ h.getD 2 0 = 8 ∧
          Nat.land (h.getD 3 0) 0xE0 = 0))) ∧
    (∀ (h rest : List Nat) (ztF : Nat), h.length = 10 →
      h.getD 0 0 = 0x1f → h.getD 1 0 = 0x8b → h.getD 2 0 = 8 → h.getD 3 0 = 0 →
      readGzipHeaderF lsRead ztF (h ++ rest) = .ok rest) ∧
    (∀ (x0 x1 b1 b2 ztF : Nat) (e nm cm z : List Nat),
      e.length = x0 + 256 * x1 → 0 ∉ nm → 0 ∉ cm →
      nm.length + 1 ≤ ztF → cm.length + 1 ≤ ztF →
      readGzipHeaderF lsRead ztF ([0x1f, 0x8b, 8, 30, 0, 0, 0, 0, 0, 3] ++
        (x0 :: x1 :: (e ++ (nm ++ 0 :: (cm ++ 0 :: (b1 :: b2 :: z)))))) = .ok z) ∧
    (∀ (h rest : List Nat) (bufSz ztF lf m : Nat), h.length = 10 → 0 < m →
      ¬(h.getD 0 0 = 0x1f ∧ h.getD 1 0 = 0x8b ∧ h.getD 2 0 = 8 ∧
        Nat.land (h.getD 3 0) 0xE0 = 0) →
      zread lsRead bufSz ztF lf (mkDec (h ++ rest) true) m = .error .badHeader) := by
  have key : ∀ (h rest : List Nat) (ztF : Nat), h.length = 10 →
      readAllF lsRead (h ++ rest) 10 = .ok (rest, h) := by
    intro h rest ztF hlen
    rw [← hlen]
    exact lsRead_readAll h rest
  refine ⟨?_, ?_, ?_, ?_⟩
  · intro h rest ztF hlen
    have h10 := key h rest ztF hlen
    constructor
    · intro hbad
      simp only [readGzipHeaderF, h10] at hbad
      by_cases hc : (h.getD 0 0 = 0x1f ∧ h.getD 1 0 = 0x8b ∧ h.getD 2 0 = 8 ∧
          Nat.land (h.getD 3 0) 0xE0 = 0)
      · rw [if_pos hc] at hbad
        exact absurd rfl (skipOptionalFields_error _ _ _ _ _ hbad)
      · exact hc
    · intro hnc
      simp only [readGzipHeaderF, h10]
      rw [if_neg hnc]
  · intro h rest ztF hlen h0 h1 h2 h3
    have h10 := key h rest ztF hlen
    have hc : h.getD 0 0 = 0x1f ∧ h.getD 1 0 = 0x8b ∧ h.getD 2 0 = 8 ∧
        Nat.land (h.getD 3 0) 0xE0 = 0 := ⟨h0, h1, h2, by rw [h3]; decide⟩
    simp only [readGzipHeaderF, h10]
    rw [if_pos hc, h3]
    exact skipOptionalFields_flags_zero lsRead ztF rest
  · intro x0 x1 b1 b2 ztF e nm cm z he hnm hcm hf1 hf2
    have h10 := key [0x1f, 0x8b, 8, 30, 0, 0, 0, 0, 0, 3]
      (x0 :: x1 :: (e ++ (nm ++ 0 :: (cm ++ 0 :: (b1 :: b2 :: z))))) ztF (by decide)
    simp only [readGzipHeaderF, h10]
    rw [if_pos (by exact ⟨rfl, rfl, rfl, by decide⟩)]
    exact skipOptionalFields_skips x0 x1 b1 b2 ztF e nm cm z he hnm hcm hf1 hf2
  · intro h rest bufSz ztF lf m hlen hm hnc
    have h10 := key h rest ztF hlen
    have hhdr : readGzipHeaderF lsRead ztF (h ++ rest) = .error .badHeader := by
      simp only [readGzipHeaderF, h10]
      rw [if_neg hnc]
    simp only [zread, mkDec]
    rw [if_neg (Nat.pos_iff_ne_zero.mp hm)]
    rw [if_pos (show (True ∧ ¬(false = true)) from ⟨trivial, by simp⟩)]
    rw [hhdr]

/-- Closed witness for the gzip header validation: a header with method
byte 9 is rejected, and a header with all optional-field flags set is
accepted with every optional field skipped. -/
theorem gzip_header_validation_witness :
    (([0x1f, 0x8b, 9, 0, 0, 0, 0, 0, 0, 3] : List Nat).length = 10 ∧
      (readGzipHeaderF lsRead 1 ([0x1f, 0x8b, 9, 0, 0, 0, 0, 0, 0, 3] ++ [42]) =
          .error .badHeader ↔
        ¬(([0x1f, 0x8b, 9, 0, 0, 0, 0, 0, 0, 3] : List Nat).getD 0 0 = 0x1f ∧
          ([0x1f, 0x8b, 9, 0, 0, 0, 0, 0, 0, 3] : List Nat).getD 1 0 = 0x8b ∧
          ([0x1f, 0x8b, 9, 0, 0, 0, 0, 0, 0, 3] : List Nat).getD 2 0 = 8 ∧
          Nat.land (([0x1f, 0x8b, 9, 0, 0, 0, 0, 0, 0, 3] : List Nat).getD 3 0) 0xE0 = 0))) ∧
    readGzipHeaderF lsRead 20 ([0x1f, 0x8b, 8, 30, 0, 0, 0, 0, 0, 3] ++
      (2 :: 0 :: ([9, 9] ++ ([5] ++ 0 :: ([6] ++ 0 :: (7 :: 7 :: [42])))))) = .ok [42] :=
  ⟨⟨by decide, gzip_header_validation.1 [0x1f, 0x8b, 9, 0, 0, 0, 0, 0, 0, 3] [42] 1 (by decide)⟩,
   gzip_header_validation.2.2.1 2 0 7 7 20 [9, 9] [5] [6] [42]
     (by decide) (by decide) (by decide) (by decide) (by decide)⟩

/-! ### The compressor pipeline over the list sink -/

theorem execLoop_consume (bufSz : Nat) :
    ∀ (fuel : Nat) (st : CompSt (List Nat)) (buf : List Nat),
      st.dz.pending = none → 2 ≤ fuel →
      execLoop lsWrite bufSz fuel st buf = .ok { st with dz := ⟨st.dz.acc ++ buf, none⟩ } := by
  intro fuel st buf hp hf
  obtain ⟨f, rfl⟩ : ∃ f, fuel = f + 2 := ⟨fuel - 2, by omega⟩
  obtain ⟨os, crc, ts, dz, fl, gz⟩ := st
  obtain ⟨acc, pend⟩ := dz
  dsimp only at hp
  subst hp
  cases buf with
  | nil => simp [execLoop]
  | cons b l =>
    simp [execLoop, deflateStep, compWrite, lsWrite]

theorem compExec_ok (bufSz fuel : Nat) (st : CompSt (List Nat)) (buf : List Nat)
    (hp : st.dz.pending = none) (hf : 2 ≤ fuel) :
    compExec lsWrite bufSz fuel st buf = .ok
      { st with
        crc := if st.useGzip then crc32 st.crc buf else st.crc,
        totalSize := if st.useGzip then (st.totalSize + buf.length) % 2 ^ 32 else st.totalSize,
        dz := ⟨st.dz.acc ++ buf, none⟩ } := by
  cases hg : st.useGzip with
  | false =>
    simp only [compExec, hg, Bool.false_eq_true, if_false]
    rw [execLoop_consume bufSz fuel st buf hp hf, hg]
  | true =>
    simp only [compExec, hg, if_true]
    rw [execLoop_consume bufSz fuel
      { st with crc := crc32 st.crc buf,
                totalSize := (st.totalSize + buf.length) % 2 ^ 32,
                useGzip := true } buf hp hf]

theorem flushLoop_spec (bufSz : Nat) (h0 : 0 < bufSz) :
    ∀ (fuel : Nat) (st : CompSt (List Nat)),
      (st.dz.pending.getD (encodeStream st.dz.acc)).length + 1 ≤ fuel →
      flushLoop lsWrite bufSz fuel st = .ok
        { st with os := st.os ++ st.dz.pending.getD (encodeStream st.dz.acc),
                  dz := ⟨[], some []⟩ } := by
  intro fuel
  induction fuel with
  | zero =>
    intro st hf
    omega
  | succ fuel ih =>
    intro st hf
    by_cases hle : (st.dz.pending.getD (encodeStream st.dz.acc)).length ≤ bufSz
    · have hstep : deflateStep st.dz [] bufSz true =
          ⟨⟨[], some []⟩, [], st.dz.pending.getD (encodeStream st.dz.acc), .streamEnd⟩ := by
        simp [deflateStep, hle, List.take_of_length_le hle, List.drop_eq_nil_of_le hle]
      simp only [flushLoop, hstep]
      simp [compWrite, lsWrite]
    · have hstep : deflateStep st.dz [] bufSz true =
          ⟨⟨[], some ((st.dz.pending.getD (encodeStream st.dz.acc)).drop bufSz)⟩, [],
            (st.dz.pending.getD (encodeStream st.dz.acc)).take bufSz, .ok⟩ := by
        simp [deflateStep, hle]
      simp only [flushLoop, hstep]
      rw [if_neg (by simp)]
      simp only [compWrite, lsWrite, ne_eq]
      rw [if_neg (by simp)]
      dsimp only
      rw [if_neg (by simp)]
      rw [ih { st with
          os := st.os ++ (st.dz.pending.getD (encodeStream st.dz.acc)).take bufSz,
          dz := ⟨[], some ((st.dz.pending.getD (encodeStream st.dz.acc)).drop bufSz)⟩ }
        (by simp only [Option.getD_some, List.length_drop]; omega)]
      simp only [Option.getD_some]
      rw [List.append_assoc, List.take_append_drop]

theorem compFlush_spec (bufSz fuel : Nat) (st : CompSt (List Nat)) (h0 : 0 < bufSz)
    (hfuel : (st.dz.pending.getD (encodeStream st.dz.acc)).length + 1 ≤ fuel) :
    compFlush lsWrite bufSz fuel st = .ok
      { st with os := st.os ++ st.dz.pending.getD (encodeStream st.dz.acc) ++
                  (if st.useGzip then le32 st.crc ++ le32 st.totalSize else []),
                dz := ⟨[], some []⟩, isFlushCalled := true } := by
  simp only [compFlush]
  rw [flushLoop_spec bufSz h0 fuel { st with isFlushCalled := true } hfuel]
  cases hg : st.useGzip with
  | false =>
    simp [hg]
  | true =>
    simp [hg, compWrite, lsWrite, List.append_assoc]

theorem encodeStream_length (d : List Nat) :
    (encodeStream d).length = 2 * d.length + 1 := by
  simp [encodeStream]
  omega

theorem compressFeeds_spec (bufSz : Nat) (h0 : 0 < bufSz) :
    ∀ (chunks : List (List Nat)) (st : CompSt (List Nat)) (fuel : Nat),
      st.dz.pending = none → st.totalSize < 2 ^ 32 →
      2 * (st.dz.acc ++ chunks.flatten).length + 3 ≤ fuel →
      compressFeeds lsWrite bufSz fuel st chunks = .ok
        { os := st.os ++ encodeStream (st.dz.acc ++ chunks.flatten) ++
            (if st.useGzip then
              le32 (crc32 st.crc chunks.flatten) ++
              le32 ((st.totalSize + chunks.flatten.length) % 2 ^ 32) else []),
          crc := if st.useGzip then crc32 st.crc chunks.flatten else st.crc,
          totalSize := if st.useGzip then (st.totalSize + chunks.flatten.length) % 2 ^ 32
            else st.totalSize,
          dz := ⟨[], some []⟩, isFlushCalled := true, useGzip := st.useGzip } := by
  intro chunks
  induction chunks with
  | nil =>
    intro st fuel hp hts hfuel
    obtain ⟨os, crc, ts, ⟨acc, pend⟩, fl, gz⟩ := st
    dsimp only at hp hts hfuel ⊢
    subst hp
    simp only [List.flatten_nil, List.append_nil] at hfuel ⊢
    have hl : (encodeStream acc).length + 1 ≤ fuel := by
      rw [encodeStream_length]
      omega
    simp only [compressFeeds]
    rw [compFlush_spec bufSz fuel ⟨os, crc, ts, ⟨acc, none⟩, fl, gz⟩ h0 hl]
    have hmod : ts % 4294967296 = ts := Nat.mod_eq_of_lt hts
    simp [crc32_nil, hmod]
  | cons c cs ih =>
    intro st fuel hp hts hfuel
    simp only [compressFeeds]
    rw [compExec_ok bufSz fuel st c hp (by omega)]
    dsimp only
    rw [ih { st with
        crc := if st.useGzip then crc32 st.crc c else st.crc,
        totalSize := if st.useGzip then (st.totalSize + c.length) % 2 ^ 32 else st.totalSize,
        dz := ⟨st.dz.acc ++ c, none⟩ } fuel rfl
      (by dsimp only; split
          · exact Nat.mod_lt _ (by norm_num)
          · exact hts)
      (by dsimp only
          simp only [List.flatten_cons, List.length_append] at hfuel ⊢
          omega)]
    cases hg : st.useGzip with
    | false => simp [hg, List.append_assoc]
    | true =>
      simp only [hg, if_true, List.flatten_cons]
      rw [crc32_append, Nat.mod_add_mod, Nat.add_assoc, ← List.length_append,
        ← List.append_assoc]
      simp [List.append_assoc]

theorem compressChunks_spec (chunks : List (List Nat)) (gz : Bool) (bufSz fuel : Nat)
    (h0 : 0 < bufSz) (hfuel : 2 * chunks.flatten.length + 3 ≤ fuel) :
    compressChunks lsWrite [] gz chunks bufSz fuel = .ok
      { os := (if gz then gzipHeaderBytes else []) ++ encodeStream chunks.flatten ++
          (if gz then le32 (crc32 0 chunks.flatten) ++
            le32 (chunks.flatten.length % 2 ^ 32) else []),
        crc := if gz then crc32 0 chunks.flatten else 0,
        totalSize := if gz then chunks.flatten.length % 2 ^ 32 else 0,
        dz := ⟨[], some []⟩, isFlushCalled := true, useGzip := gz } := by
  cases gz with
  | false =>
    simp only [compressChunks, mkComp, Bool.false_eq_true, if_false]
    rw [compressFeeds_spec bufSz h0 chunks ⟨[], 0, 0, ⟨[], none⟩, false, false⟩ fuel rfl
      (by norm_num) (by simpa using hfuel)]
    simp
  | true =>
    have hmk : mkComp lsWrite ([] : List Nat) true =
        .ok ⟨gzipHeaderBytes, 0, 0, ⟨[], none⟩, false, true⟩ := by
      simp [mkComp, compWrite, lsWrite, gzipHeaderBytes]
    simp only [compressChunks, hmk]
    rw [compressFeeds_spec bufSz h0 chunks ⟨gzipHeaderBytes, 0, 0, ⟨[], none⟩, false, true⟩
      fuel rfl (by norm_num) (by simpa using hfuel)]
    simp

theorem le32_length (n : Nat) : (le32 n).length = 4 := rfl

/-! ### C6: the gzip trailer -/

/-- C6: a gzip-mode compressor session that feeds arbitrary chunks and
then flushes writes, as the final 8 bytes sent to the sink, exactly the
4-byte little-endian CRC-32 of the concatenation of all bytes fed
followed by the 4-byte little-endian total fed length modulo `2^32`
(the accumulators are updated over each `exec` input before compression,
per `compExec`); a raw-mode session writes only the engine output — no
trailer. -/
theorem gzip_trailer_spec (chunks : List (List Nat)) (bufSz fuel : Nat)
    (h0 : 0 < bufSz) (hfuel : 2 * chunks.flatten.length + 3 ≤ fuel) :
    (∃ st : CompSt (List Nat),
      compressChunks lsWrite [] true chunks bufSz fuel = .ok st ∧
      8 ≤ st.os.length ∧
      st.os.drop (st.os.length - 8) =
        le32 (crc32 0 chunks.flatten) ++ le32 (chunks.flatten.length % 2 ^ 32)) ∧
    (∃ st2 : CompSt (List Nat),
      compressChunks lsWrite [] false chunks bufSz fuel = .ok st2 ∧
      st2.os = encodeStream chunks.flatten) := by
  constructor
  · refine ⟨_, compressChunks_spec chunks true bufSz fuel h0 hfuel, ?_, ?_⟩
    · dsimp only
      simp [le32_length]
      omega
    · dsimp only
      have hlen : (gzipHeaderBytes ++ encodeStream chunks.flatten ++
          (le32 (crc32 0 chunks.flatten) ++ le32 (chunks.flatten.length % 2 ^ 32))).length -
          8 = (gzipHeaderBytes ++ encodeStream chunks.flatten).length := by
        simp [le32_length]
        omega
      rw [show (if true then gzipHeaderBytes else []) = gzipHeaderBytes from rfl]
      rw [show (if true then le32 (crc32 0 chunks.flatten) ++
        le32 (chunks.flatten.length % 2 ^ 32) else ([] : List Nat)) =
        le32 (crc32 0 chunks.flatten) ++ le32 (chunks.flatten.length % 2 ^ 32) from rfl]
      rw [List.append_assoc gzipHeaderBytes]
      rw [← List.append_assoc gzipHeaderBytes]
      rw [hlen, List.drop_left]
  · refine ⟨_, compressChunks_spec chunks false bufSz fuel h0 hfuel, ?_⟩
    simp

/-- Closed witness for the gzip trailer property at a concrete
session. -/
theorem gzip_trailer_spec_witness :
    ((0 : Nat) < 4 ∧ 2 * ([[5], [6]] : List (List Nat)).flatten.length + 3 ≤ 20) ∧
    ((∃ st : CompSt (List Nat),
      compressChunks lsWrite [] true [[5], [6]] 4 20 = .ok st ∧
      8 ≤ st.os.length ∧
      st.os.drop (st.os.length - 8) =
        le32 (crc32 0 ([[5], [6]] : List (List Nat)).flatten) ++
          le32 (([[5], [6]] : List (List Nat)).flatten.length % 2 ^ 32)) ∧
    (∃ st2 : CompSt (List Nat),
      compressChunks lsWrite [] false [[5], [6]] 4 20 = .ok st2 ∧
      st2.os = encodeStream ([[5], [6]] : List (List Nat)).flatten)) :=
  ⟨⟨by decide, by decide⟩, gzip_trailer_spec [[5], [6]] 4 20 (by decide) (by decide)⟩

/-! ### Characterization of the modelled inflate step -/

theorem inflateStep_one (a cap : Nat) (rest : List Nat) :
    inflateStep (.lenP a) (1 :: rest) cap = inflateStep (.lenP (a + 1)) rest cap := by
  simp [inflateStep]

theorem inflateStep_replicate (j : Nat) :
    ∀ (a cap : Nat) (rest : List Nat),
      inflateStep (.lenP a) (List.replicate j 1 ++ rest) cap =
        inflateStep (.lenP (a + j)) rest cap := by
  induction j with
  | zero =>
    intro a cap rest
    simp
  | succ j ih =>
    intro a cap rest
    rw [List.replicate_succ, List.cons_append, inflateStep_one, ih (a + 1)]
    have : a + 1 + j = a + (j + 1) := by omega
    rw [this]

theorem inflateStep_marker (a cap : Nat) (rest : List Nat) :
    inflateStep (.lenP a) (0 :: rest) cap = inflateStep (.bodyP a) rest cap := by
  simp [inflateStep]

theorem inflateStep_body (input : List Nat) :
    ∀ (r cap : Nat),
      inflateStep (.bodyP r) input cap =
        ⟨if min r (min input.length cap) = r then .done
          else .bodyP (r - min r (min input.length cap)),
         input.drop (min r (min input.length cap)),
         input.take (min r (min input.length cap)),
         if min r (min input.length cap) = r then .streamEnd else .ok⟩ := by
  induction input with
  | nil =>
    intro r cap
    cases r with
    | zero => simp [inflateStep]
    | succ r => simp [inflateStep]
  | cons b rest ih =>
    intro r cap
    cases r with
    | zero => simp [inflateStep]
    | succ r =>
      cases cap with
      | zero => simp [inflateStep]
      | succ cap =>
        have hk : min (r + 1) (min (b :: rest).length (cap + 1)) =
            min r (min rest.length cap) + 1 := by
          simp only [List.length_cons]
          omega
        rw [hk]
        simp only [inflateStep, ih r cap]
        by_cases h : min r (min rest.length cap) = r
        · simp [h]
        · simp [h, Nat.succ_sub_succ]

/-! ### One mid-stream pull of the decompressor -/

theorem append_split {A s V : List Nat} (h : A ++ s = V) :
    A = V.take A.length ∧ s = V.drop A.length := by
  subst h
  exact ⟨(List.take_left A s).symm, (List.drop_left A s).symm⟩

theorem take_drop_transfer (rest T0 E s2 : List Nat) (k0 : Nat)
    (hE : E ++ s2 = rest ++ T0) (hkE : k0 ≤ E.length) (hkr : k0 ≤ rest.length) :
    E.take k0 = rest.take k0 ∧ E.drop k0 ++ s2 = rest.drop k0 ++ T0 := by
  constructor
  · have h1 : (E ++ s2).take k0 = E.take k0 := List.take_append_of_le_length hkE
    rw [← h1, hE, List.take_append_of_le_length hkr]
  · have h2 : (E ++ s2).drop k0 = E.drop k0 ++ s2 := List.drop_append_of_le_length hkE
    rw [← h2, hE, List.drop_append_of_le_length hkr]

theorem readStep_classify (dbuf lf m : Nat) (hm : 0 < m)
    (ihf : ∀ (st : DecSt (List Nat)) (rest T0 : List Nat),
      (MidLen st rest T0 ∨ MidBody st rest T0) →
      2 * (st.availIn ++ st.src).length + 4 ≤ lf →
      ∃ st2 k, readLoop lsRead dbuf lf st m [] = .ok (st2, rest.take k) ∧
        PullPost st2 k rest T0)
    (st1 : DecSt (List Nat)) (rest T0 E : List Nat)
    (hgz : st1.useGzip = true → st1.gzHeaderDone = true)
    (hE : E ++ st1.src = rest ++ T0)
    (hq : inflateStep st1.phase st1.availIn m = inflateStep (.bodyP rest.length) E m)
    (hfuel2 : 2 * st1.src.length + 4 ≤ lf) :
    ∃ st2 k, readStep lsRead dbuf lf st1 m [] = .ok (st2, rest.take k) ∧
      PullPost st2 k rest T0 := by
  have hcap : m - ([] : List Nat).length = m := rfl
  have hkE : min rest.length (min E.length m) ≤ E.length := by omega
  have hkr : min rest.length (min E.length m) ≤ rest.length := by omega
  have hkm : min rest.length (min E.length m) ≤ m := by omega
  obtain ⟨htk, hdr⟩ := take_drop_transfer rest T0 E st1.src
    (min rest.length (min E.length m)) hE hkE hkr
  simp only [readStep, hcap, hq, inflateStep_body]
  by_cases hk : min rest.length (min E.length m) = rest.length
  · -- the engine reaches the logical end in this step
    simp only [if_pos hk]
    simp only [if_true]
    refine ⟨{ st1 with phase := .done,
                       availIn := E.drop (min rest.length (min E.length m)),
                       ret := .streamEnd },
      min rest.length (min E.length m), ?_, ?_⟩
    · rw [List.nil_append, htk]
    · have hend : EndSt
          { st1 with phase := .done,
                     availIn := E.drop (min rest.length (min E.length m)),
                     ret := .streamEnd } T0 := by
        refine ⟨rfl, hgz, rfl, ?_⟩
        dsimp only
        rw [hdr, hk, List.drop_length, List.nil_append]
      by_cases hrc : rest = []
      · refine Or.inl ⟨hrc, ?_, hend⟩
        rw [hk, hrc]
        rfl
      · refine Or.inr (Or.inl ⟨?_, hk, hend⟩)
        have hrl : rest.length ≠ 0 := fun h => hrc (List.eq_nil_of_length_eq_zero h)
        omega
  · -- the engine still owes data after this step
    simp only [if_neg hk]
    rw [if_neg (show ¬(ZStatus.ok = ZStatus.streamEnd) by simp)]
    rw [if_neg (show ¬(ZStatus.ok ≠ ZStatus.ok) by simp)]
    simp only [List.nil_append, List.length_take, Nat.min_eq_left hkE]
    have hr1 : 1 ≤ rest.length := by omega
    by_cases hk0 : min rest.length (min E.length m) = 0
    · -- the scratch buffer ended exactly at the marker: retry
      have hE0 : E = [] := by
        have : E.length = 0 := by omega
        exact List.eq_nil_of_length_eq_zero this
      rw [if_pos (show m - rest.length ⊓ (E.length ⊓ m) = m by omega)]
      simp only [hk0, Nat.sub_zero, List.drop_zero, List.take_zero]
      have hmid2 : MidBody { st1 with phase := .bodyP rest.length,
                                      availIn := E, ret := .ok } rest T0 := by
        refine ⟨rfl, hgz, rfl, ?_, ?_⟩
        · intro hr
          rw [hr] at hr1
          simp at hr1
        · dsimp only
          rw [hE]
      obtain ⟨st3, k, heq, hpost⟩ := ihf _ rest T0 (Or.inr hmid2) (by
        dsimp only
        rw [hE0, List.nil_append]
        exact hfuel2)
      exact ⟨st3, k, heq, hpost⟩
    · -- at least one byte delivered
      rw [if_neg (show ¬(m - rest.length ⊓ (E.length ⊓ m) = m) by omega)]
      refine ⟨{ st1 with
                  phase := .bodyP (rest.length - min rest.length (min E.length m)),
                  availIn := E.drop (min rest.length (min E.length m)),
                  ret := .ok },
        min rest.length (min E.length m), ?_, ?_⟩
      · rw [htk]
      · refine Or.inr (Or.inr ⟨by omega, Nat.lt_of_le_of_ne hkr hk, rfl, hgz, ?_, ?_, ?_⟩)
        · dsimp only
          rw [List.length_drop]
        · intro hr
          have hlen := congrArg List.length hr
          simp only [List.length_drop, List.length_nil] at hlen
          omega
        · dsimp only
          rw [hdr]

theorem unary_prefix_le (j : Nat) (W A s : List Nat)
    (hV : A ++ s = List.replicate j 1 ++ 0 :: W) (hle : A.length ≤ j) :
    A = List.replicate A.length 1 ∧
      s = List.replicate (j - A.length) 1 ++ 0 :: W := by
  obtain ⟨hA, hs⟩ := append_split hV
  have hjl : A.length ≤ (List.replicate j (1 : Nat)).length := by
    rw [List.length_replicate]
    exact hle
  constructor
  · conv_lhs => rw [hA]
    rw [List.take_append_of_le_length hjl, List.take_replicate, Nat.min_eq_left hle]
  · conv_lhs => rw [hs]
    rw [List.drop_append_of_le_length hjl, List.drop_replicate]

theorem unary_prefix_gt (j c : Nat) (W A s : List Nat)
    (hV : A ++ s = List.replicate j 1 ++ 0 :: W) (hlen : A.length = j + 1 + c) :
    A = List.replicate j 1 ++ 0 :: W.take c ∧ s = W.drop c := by
  obtain ⟨hA, hs⟩ := append_split hV
  have hcount : j + 1 + c = (List.replicate j (1 : Nat)).length + (c + 1) := by
    rw [List.length_replicate]
    omega
  constructor
  · conv_lhs => rw [hA, hlen]
    rw [hcount, List.take_append, List.take_succ_cons]
  · conv_lhs => rw [hs, hlen]
    rw [hcount, List.drop_append, List.drop_succ_cons]

theorem readStep_mid_nonempty (dbuf m : Nat) (hm : 0 < m) (fuel : Nat)
    (ihf : ∀ (st : DecSt (List Nat)) (rest T0 : List Nat),
      (MidLen st rest T0 ∨ MidBody st rest T0) →
      2 * (st.availIn ++ st.src).length + 4 ≤ fuel →
      ∃ st2 k, readLoop lsRead dbuf fuel st m [] = .ok (st2, rest.take k) ∧
        PullPost st2 k rest T0)
    (st1 : DecSt (List Nat)) (rest T0 : List Nat)
    (hmid : MidLen st1 rest T0 ∨ MidBody st1 rest T0)
    (hA : st1.availIn ≠ [])
    (hfuel : 2 * (st1.availIn ++ st1.src).length + 2 ≤ fuel) :
    ∃ st2 k, readStep lsRead dbuf fuel st1 m [] = .ok (st2, rest.take k) ∧
      PullPost st2 k rest T0 := by
  have hAlen : 1 ≤ st1.availIn.length := by
    cases hAc : st1.availIn with
    | nil => exact absurd hAc hA
    | cons b l => simp
  have hVlen : (st1.availIn ++ st1.src).length =
      st1.availIn.length + st1.src.length := List.length_append _ _
  have hfuel2 : 2 * st1.src.length + 4 ≤ fuel := by omega
  rcases hmid with hL | hB
  · obtain ⟨hret, hgz, a, j, hph, haj, hV⟩ := hL
    by_cases hle : st1.availIn.length ≤ j
    · -- the whole scratch buffer is ones of the length prefix
      obtain ⟨hArep, hsrep⟩ := unary_prefix_le j (rest ++ T0) st1.availIn st1.src hV hle
      have hstep : inflateStep st1.phase st1.availIn m =
          ⟨.lenP (a + st1.availIn.length), [], [], .ok⟩ := by
        rw [hph]
        conv_lhs => rw [hArep,
          ← List.append_nil (List.replicate st1.availIn.length (1 : Nat))]
        rw [inflateStep_replicate]
        rfl
      have hcap : m - ([] : List Nat).length = m := rfl
      simp only [readStep, hcap, hstep]
      rw [if_neg (show ¬(ZStatus.ok = .streamEnd) by simp), if_neg (by simp)]
      simp only [List.append_nil, List.length_nil, Nat.sub_zero, if_pos rfl]
      have hmid2 : MidLen { st1 with phase := .lenP (a + st1.availIn.length),
                                     availIn := [], ret := .ok } rest T0 := by
        refine ⟨rfl, hgz, a + st1.availIn.length, j - st1.availIn.length, rfl, by omega, ?_⟩
        dsimp only
        rw [List.nil_append, hsrep]
      obtain ⟨st3, k, heq, hpost⟩ := ihf _ rest T0 (Or.inl hmid2) (by
        dsimp only
        rw [List.nil_append]
        exact hfuel2)
      exact ⟨st3, k, heq, hpost⟩
    · -- the scratch buffer crosses the zero marker
      have hlen : st1.availIn.length = j + 1 + (st1.availIn.length - j - 1) := by omega
      obtain ⟨hArep, hsrep⟩ :=
        unary_prefix_gt j (st1.availIn.length - j - 1) (rest ++ T0) st1.availIn st1.src hV hlen
      have hstep : inflateStep st1.phase st1.availIn m =
          inflateStep (.bodyP rest.length)
            ((rest ++ T0).take (st1.availIn.length - j - 1)) m := by
        rw [hph]
        conv_lhs => rw [hArep]
        rw [inflateStep_replicate, inflateStep_marker, haj]
      have hE : (rest ++ T0).take (st1.availIn.length - j - 1) ++ st1.src = rest ++ T0 := by
        conv_lhs => rw [hsrep]
        exact List.take_append_drop _ _
      exact readStep_classify dbuf fuel m hm ihf st1 rest T0 _ hgz hE hstep hfuel2
  · obtain ⟨hret, hgz, hph, hne, hV⟩ := hB
    have hstep : inflateStep st1.phase st1.availIn m =
        inflateStep (.bodyP rest.length) st1.availIn m := by rw [hph]
    exact readStep_classify dbuf fuel m hm ihf st1 rest T0 st1.availIn hgz hV hstep hfuel2

theorem readLoop_mid (dbuf m : Nat) (h0 : 0 < dbuf) (hm : 0 < m) :
    ∀ (fuel : Nat) (st : DecSt (List Nat)) (rest T0 : List Nat),
      (MidLen st rest T0 ∨ MidBody st rest T0) →
      2 * (st.availIn ++ st.src).length + 4 ≤ fuel →
      ∃ st2 k, readLoop lsRead dbuf fuel st m [] = .ok (st2, rest.take k) ∧
        PullPost st2 k rest T0 := by
  intro fuel
  induction fuel with
  | zero =>
    intro st rest T0 _ hfuel
    omega
  | succ fuel ih =>
    intro st rest T0 hmid hfuel
    have hret : st.ret = .ok := by
      rcases hmid with h | h
      · exact h.1
      · exact h.1
    by_cases hA : st.availIn = []
    · have hVs : st.availIn ++ st.src = st.src := by rw [hA]; rfl
      have hsrc : st.src ≠ [] := by
        intro h
        rcases hmid with hL | hB
        · obtain ⟨_, _, a, j, _, _, hV⟩ := hL
          rw [hA, h] at hV
          have hcl := congrArg List.length hV
          simp at hcl
          omega
        · obtain ⟨_, _, _, hne, hV⟩ := hB
          rw [hA, h] at hV
          have hcl := congrArg List.length hV
          simp only [List.nil_append, List.length_nil, List.length_append] at hcl
          have : rest = [] := by
            have : rest.length = 0 := by omega
            exact List.eq_nil_of_length_eq_zero this
          exact hne this
      rw [readLoop_step_refill lsRead dbuf fuel m st []
        hA (fun h => absurd h (by rw [hret]; simp))]
      have hV2 : (lsRead st.src dbuf).2 ++ (lsRead st.src dbuf).1 = st.src := by
        simp [lsRead, List.take_append_drop]
      have hane : (lsRead st.src dbuf).2 ≠ [] := by
        simp only [lsRead]
        intro hcontra
        have hl := congrArg List.length hcontra
        rw [List.length_take] at hl
        simp only [List.length_nil] at hl
        have hs1 : st.src.length ≠ 0 := fun hz => hsrc (List.eq_nil_of_length_eq_zero hz)
        omega
      apply readStep_mid_nonempty dbuf m hm fuel ih _ rest T0 ?_ ?_ ?_
      · rcases hmid with hL | hB
        · obtain ⟨h1, h2, a, j, h3, h4, h5⟩ := hL
          refine Or.inl ⟨h1, h2, a, j, h3, h4, ?_⟩
          dsimp only
          rw [hV2, ← hVs]
          exact h5
        · obtain ⟨h1, h2, h3, h4, h5⟩ := hB
          refine Or.inr ⟨h1, h2, h3, h4, ?_⟩
          dsimp only
          rw [hV2, ← hVs]
          exact h5
      · exact hane
      · dsimp only
        rw [show ((lsRead st.src dbuf).2 ++ (lsRead st.src dbuf).1).length = st.src.length
          from by rw [hV2]]
        rw [hVs] at hfuel
        omega
    · rw [readLoop_step_no_refill lsRead dbuf fuel m st [] hA]
      exact readStep_mid_nonempty dbuf m hm fuel ih st rest T0 hmid hA (by omega)

theorem zread_mid_eq (dbuf ztF lf m : Nat) (st : DecSt (List Nat))
    (hgz : st.useGzip = true → st.gzHeaderDone = true) (hm : m ≠ 0) :
    zread lsRead dbuf ztF lf st m = readLoop lsRead dbuf lf st m [] := by
  simp only [zread, if_neg hm]
  have hcond : ¬(st.useGzip = true ∧ ¬(st.gzHeaderDone = true)) := by
    rintro ⟨h1, h2⟩
    exact h2 (hgz h1)
  rw [if_neg hcond]

theorem readStep_done {ι : Type} (rd : ι → Nat → ι × List Nat) (bufSz fuel m : Nat)
    (st1 : DecSt ι) (produced : List Nat) (hph : st1.phase = .done) :
    readStep rd bufSz fuel st1 m produced =
      .ok ({ st1 with phase := .done, ret := .streamEnd }, produced) := by
  obtain ⟨src, ph, availIn, ret, gz, hd⟩ := st1
  dsimp only at hph
  subst hph
  simp [readStep, inflateStep]

theorem zread_end (dbuf ztF lf m : Nat) (h0 : 0 < dbuf) (st : DecSt (List Nat))
    (T0 : List Nat) (hend : EndSt st T0) (hm : m ≠ 0) :
    ∃ st2, zread lsRead dbuf ztF (lf + 1) st m = .ok (st2, []) ∧ EndSt st2 T0 := by
  obtain ⟨hret, hgz, hph, hV⟩ := hend
  rw [zread_mid_eq dbuf ztF (lf + 1) m st hgz hm]
  by_cases hA : st.availIn = []
  · have hsrcT : st.src = T0 := by
      rw [hA] at hV
      simpa using hV
    by_cases hs : st.src = []
    · rw [readLoop_step_refill_end lsRead dbuf lf m st [] hA hret (by simp [lsRead, hs])]
      refine ⟨_, rfl, hret, hgz, hph, ?_⟩
      dsimp only [lsRead]
      rw [List.take_append_drop, hsrcT]
    · have hane : (lsRead st.src dbuf).2 ≠ [] := by
        simp only [lsRead]
        intro hcontra
        have hl := congrArg List.length hcontra
        rw [List.length_take] at hl
        simp only [List.length_nil] at hl
        have hs1 : st.src.length ≠ 0 := fun hz => hs (List.eq_nil_of_length_eq_zero hz)
        omega
      rw [readLoop_step_refill lsRead dbuf lf m st [] hA (fun _ => hane)]
      rw [readStep_done lsRead dbuf lf m { st with src := (lsRead st.src dbuf).1, availIn := (lsRead st.src dbuf).2 } [] hph]
      refine ⟨_, rfl, rfl, hgz, rfl, ?_⟩
      dsimp only [lsRead]
      rw [List.take_append_drop, hsrcT]
  · rw [readLoop_step_no_refill lsRead dbuf lf m st [] hA]
    rw [readStep_done lsRead dbuf lf m st [] hph]
    exact ⟨_, rfl, rfl, hgz, rfl, hV⟩

theorem pullAll_post_step (dbuf ztF l2 m fuel : Nat) (st2 : DecSt (List Nat))
    (k : Nat) (rest T0 acc : List Nat)
    (hpost : PullPost st2 k rest T0)
    (ihf : ∀ (st3 : DecSt (List Nat)) (rest3 T03 acc3 : List Nat),
      (MidLen st3 rest3 T03 ∨ MidBody st3 rest3 T03 ∨ (rest3 = [] ∧ EndSt st3 T03)) →
      2 * (st3.availIn ++ st3.src).length + 4 ≤ l2 + 1 →
      rest3.length + 2 ≤ fuel →
      pullAll lsRead dbuf ztF (l2 + 1) fuel st3 m acc3 = .ok (acc3 ++ rest3))
    (hfuel : rest.length + 2 ≤ fuel + 1)
    (hVb : 2 * (rest.length + T0.length) + 4 ≤ l2 + 1) :
    (if (rest.take k).length = 0 then (.ok acc : Except ZErr (List Nat))
     else pullAll lsRead dbuf ztF (l2 + 1) fuel st2 m (acc ++ rest.take k)) =
      .ok (acc ++ rest) := by
  rcases hpost with ⟨hrnil, hk0, hend⟩ | ⟨hk1, hkr, hend⟩ | ⟨hk1, hkr, hmid2⟩
  · subst hrnil
    simp
  · subst hkr
    have hr1 : 1 ≤ rest.length := hk1
    rw [List.take_length]
    rw [if_neg (by omega)]
    have hV2 : (st2.availIn ++ st2.src).length = T0.length :=
      congrArg List.length hend.2.2.2
    rw [ihf st2 [] T0 (acc ++ rest) (Or.inr (Or.inr ⟨rfl, hend⟩))
      (by omega) (by simp only [List.length_nil]; omega)]
    rw [List.append_nil]
  · have hr1 : 1 ≤ rest.length := by omega
    have hlen : (rest.take k).length = k := by
      rw [List.length_take]
      omega
    rw [if_neg (by omega)]
    have hV2 : (st2.availIn ++ st2.src).length = (rest.drop k).length + T0.length := by
      rw [hmid2.2.2.2.2]
      exact List.length_append _ _
    have hdlen : (rest.drop k).length = rest.length - k := List.length_drop _ _
    rw [ihf st2 (rest.drop k) T0 (acc ++ rest.take k) (Or.inr (Or.inl hmid2))
      (by omega) (by omega)]
    rw [List.append_assoc, List.take_append_drop]

theorem pullAll_mid (dbuf ztF lf m : Nat) (h0 : 0 < dbuf) (hm : 0 < m) :
    ∀ (fuel : Nat) (st : DecSt (List Nat)) (rest T0 acc : List Nat),
      (MidLen st rest T0 ∨ MidBody st rest T0 ∨ (rest = [] ∧ EndSt st T0)) →
      2 * (st.availIn ++ st.src).length + 4 ≤ lf →
      rest.length + 2 ≤ fuel →
      pullAll lsRead dbuf ztF lf fuel st m acc = .ok (acc ++ rest) := by
  intro fuel
  induction fuel with
  | zero =>
    intro st rest T0 acc _ _ hfuel
    omega
  | succ fuel ih =>
    intro st rest T0 acc hmid hlf hfuel
    obtain ⟨l2, rfl⟩ : ∃ l2, lf = l2 + 1 := ⟨lf - 1, by omega⟩
    rcases hmid with hmid | hmid | ⟨hrest, hend⟩
    rotate_right
    · -- already ended: one empty pull closes the session
      obtain ⟨st2, heq, _⟩ := zread_end dbuf ztF l2 m h0 st T0 hend (by omega)
      simp only [pullAll, heq]
      simp [hrest]
    · -- mid length-prefix
      have hgz := hmid.2.1
      have hTlen : rest.length + T0.length ≤ (st.availIn ++ st.src).length := by
        obtain ⟨_, _, a, j, _, _, hV⟩ := hmid
        rw [hV]
        simp
        omega
      obtain ⟨st2, k, heq, hpost⟩ :=
        readLoop_mid dbuf m h0 hm (l2 + 1) st rest T0 (Or.inl hmid) hlf
      rw [pullAll, zread_mid_eq dbuf ztF (l2 + 1) m st hgz (by omega), heq]
      exact pullAll_post_step dbuf ztF l2 m fuel st2 k rest T0 acc hpost
        (fun st3 rest3 T03 acc3 hmid3 hlf3 hfuel3 => ih st3 rest3 T03 acc3 hmid3 hlf3 hfuel3)
        hfuel (by omega)
    · -- mid body
      have hgz := hmid.2.1
      have hTlen : rest.length + T0.length ≤ (st.availIn ++ st.src).length := by
        obtain ⟨_, _, _, _, hV⟩ := hmid
        rw [hV]
        simp
      obtain ⟨st2, k, heq, hpost⟩ :=
        readLoop_mid dbuf m h0 hm (l2 + 1) st rest T0 (Or.inr hmid) hlf
      rw [pullAll, zread_mid_eq dbuf ztF (l2 + 1) m st hgz (by omega), heq]
      exact pullAll_post_step dbuf ztF l2 m fuel st2 k rest T0 acc hpost
        (fun st3 rest3 T03 acc3 hmid3 hlf3 hfuel3 => ih st3 rest3 T03 acc3 hmid3 hlf3 hfuel3)
        hfuel (by omega)

theorem readGzipHeaderF_std (ztF : Nat) (rest : List Nat) :
    readGzipHeaderF lsRead ztF (gzipHeaderBytes ++ rest) = .ok rest := by
  have h := lsRead_readAll gzipHeaderBytes rest
  rw [show (gzipHeaderBytes : List Nat).length = 10 from rfl] at h
  simp only [readGzipHeaderF, h]
  rw [if_pos (by decide)]
  rw [show (gzipHeaderBytes : List Nat).getD 3 0 = 0 from rfl]
  exact skipOptionalFields_flags_zero lsRead ztF rest

theorem zread_gzip_first (dbuf ztF lf m : Nat) (hm : m ≠ 0) (W : List Nat) :
    zread lsRead dbuf ztF lf (mkDec (gzipHeaderBytes ++ W) true) m =
      readLoop lsRead dbuf lf (⟨W, .lenP 0, [], .ok, true, true⟩ : DecSt (List Nat)) m [] := by
  simp only [zread, mkDec, if_neg hm]
  rw [if_pos (by simp)]
  rw [readGzipHeaderF_std ztF W]

theorem pullAll_raw_session (dbuf ztF lf m : Nat) (h0 : 0 < dbuf) (hm : 0 < m)
    (fuel : Nat) (B : List Nat)
    (hlf : 2 * (2 * B.length + 1) + 4 ≤ lf) (hfuel : B.length + 2 ≤ fuel) :
    pullAll lsRead dbuf ztF lf fuel (mkDec (encodeStream B) false) m [] = .ok B := by
  have hmid : MidLen (mkDec (encodeStream B) false) B [] := by
    refine ⟨rfl, by intro h; simp [mkDec] at h, 0, B.length, rfl, by omega, ?_⟩
    simp [mkDec, encodeStream]
  have h := pullAll_mid dbuf ztF lf m h0 hm fuel (mkDec (encodeStream B) false) B [] []
    (Or.inl hmid)
    (by simp only [mkDec, List.nil_append, encodeStream_length]; omega) hfuel
  simpa using h

theorem pullAll_gzip_session (dbuf ztF lf m : Nat) (h0 : 0 < dbuf) (hm : 0 < m)
    (fuel : Nat) (B T : List Nat)
    (hlf : 2 * (2 * B.length + 1 + T.length) + 4 ≤ lf) (hfuel : B.length + 2 ≤ fuel) :
    pullAll lsRead dbuf ztF lf (fuel + 1)
      (mkDec (gzipHeaderBytes ++ (encodeStream B ++ T)) true) m [] = .ok B := by
  obtain ⟨l2, rfl⟩ : ∃ l2, lf = l2 + 1 := ⟨lf - 1, by omega⟩
  have hmid1 : MidLen (⟨encodeStream B ++ T, .lenP 0, [], .ok, true, true⟩ : DecSt (List Nat))
      B T := by
    refine ⟨rfl, fun _ => rfl, 0, B.length, rfl, by omega, ?_⟩
    simp [encodeStream]
  obtain ⟨st2, k, heq2, hpost⟩ :=
    readLoop_mid dbuf m h0 hm (l2 + 1) _ B T (Or.inl hmid1)
      (by simp only [List.nil_append, List.length_append, encodeStream_length]; omega)
  rw [pullAll, zread_gzip_first dbuf ztF (l2 + 1) m (by omega) (encodeStream B ++ T), heq2]
  have h := pullAll_post_step dbuf ztF l2 m fuel st2 k B T [] hpost
    (fun st3 rest3 T03 acc3 h1 h2 h3 =>
      pullAll_mid dbuf ztF (l2 + 1) m h0 hm fuel st3 rest3 T03 acc3 h1 h2 h3)
    (by omega) (by omega)
  simpa using h

/-- C1: round trip.  For every byte sequence `B` (as the concatenation of
an arbitrary sequence of feed buffers, including the empty one) and both
modes, a full compressor session (construction, the feeds, `flush`)
followed by a decompressor session over the produced bytes in the same
mode (pulling `max_len = m` until a pull returns zero bytes) yields
exactly `B`, for every positive compressor buffer size, decompressor
scratch-buffer size and `max_len`, once the fuel bounds stated here are
met. -/
theorem round_trip_spec (gz : Bool) (chunks : List (List Nat))
    (cbuf dbuf m cfuel ztF lf pfuel : Nat)
    (hc : 0 < cbuf) (hd : 0 < dbuf) (hm : 0 < m)
    (hcf : 2 * chunks.flatten.length + 3 ≤ cfuel)
    (hlf : 4 * chunks.flatten.length + 22 ≤ lf)
    (hpf : chunks.flatten.length + 3 ≤ pfuel) :
    ∃ st : CompSt (List Nat),
      compressChunks lsWrite [] gz chunks cbuf cfuel = .ok st ∧
      pullAll lsRead dbuf ztF lf pfuel (mkDec st.os gz) m [] = .ok chunks.flatten := by
  refine ⟨_, compressChunks_spec chunks gz cbuf cfuel hc hcf, ?_⟩
  cases gz with
  | false =>
    simp only [Bool.false_eq_true, if_false, List.nil_append, List.append_nil]
    exact pullAll_raw_session dbuf ztF lf m hd hm pfuel chunks.flatten
      (by omega) (by omega)
  | true =>
    simp only [if_true]
    obtain ⟨pf2, rfl⟩ : ∃ pf2, pfuel = pf2 + 1 := ⟨pfuel - 1, by omega⟩
    rw [List.append_assoc]
    exact pullAll_gzip_session dbuf ztF lf m hd hm pf2 chunks.flatten _
      (by simp only [List.length_append, le32_length]; omega) (by omega)

/-- C1 witness: a concrete gzip-mode session over the two feeds
`[5,6]`, `[7]` compresses and decompresses back to `[5,6,7]`. -/
theorem round_trip_spec_witness :
    ∃ st : CompSt (List Nat),
      compressChunks lsWrite [] true [[5, 6], [7]] 4 9 = .ok st ∧
      pullAll lsRead 2 1 34 6 (mkDec st.os true) 2 [] = .ok [5, 6, 7] :=
  round_trip_spec true [[5, 6], [7]] 4 2 2 9 1 34 6 (by decide) (by decide) (by decide)
    (by decide) (by decide) (by decide)

end Cybozu
